import Mathlib

set_option maxRecDepth 1000000

deriving instance DecidableEq for Except

/-!
Shallow embedding of the OrderBook-rs order-book engine (Rust) used to check
a list of specification claims against the code.

Machine integers are modelled as `Nat` with explicit reduction `% 2^w` where
overflow matters; fallible Rust functions returning `Result<T, E>` are
modelled as `Except E T`; in-place mutation of `&self` is modelled as
explicit state passing (a function returns the value produced by the call
together with the state after the call).
-/

namespace OrderBookRs

/-! ## Basic data model

`Side` is the `pricelevel::Side` enum (Buy/Sell).  Orders in this development
carry exactly the fields the verified operations inspect: the unique id and
the visible/hidden quantity split.  The `pricelevel` crate is an external
dependency of the repository, so its types are embedded by their documented
semantics (spec sections 3 and 4.1, and the snapshot JSON schema of section 6).
-/

/-- Order side (`pricelevel::Side`). -/
inductive Side where
  | Buy : Side
  | Sell : Side
deriving DecidableEq, Repr

/-- Modelled from the spec: a resting order as the matching/indexing paths see
it (`pricelevel::OrderType`, external crate): unique id plus the
visible/hidden quantity split (spec section 3, "Order"). -/
structure Order where
  id : Nat
  visible_quantity : Nat
  hidden_quantity : Nat
deriving DecidableEq, Repr

/-- Modelled from the spec: `pricelevel::PriceLevel` (external crate): the FIFO
list of orders at one price (spec section 3, "PriceLevel").  Aggregate
quantities are derived from the order list, which is exactly the state a level
has after `refresh_aggregates` / restoration (spec section 4.1). -/
structure PriceLevel where
  price : Nat
  orders : List Order
deriving DecidableEq, Repr

/-- `PriceLevel::total_quantity`: visible plus hidden quantity over all orders
at the level. -/
def PriceLevel.total_quantity (l : PriceLevel) : Nat :=
  (l.orders.map (fun o => o.visible_quantity + o.hidden_quantity)).sum

/-- Modelled from the spec: `pricelevel::PriceLevelSnapshot` (external crate):
price, stored aggregate quantities and the full order list, per the snapshot
JSON schema of spec section 6. -/
structure PriceLevelSnapshot where
  price : Nat
  visible_quantity : Nat
  hidden_quantity : Nat
  order_count : Nat
  orders : List Order
deriving DecidableEq, Repr

/-- Modelled from the spec: `PriceLevelSnapshot::refresh_aggregates` (external
crate): all aggregate fields are recomputed from the contained order list
(spec section 4.1, "all aggregate fields are recomputed on restoration"). -/
def PriceLevelSnapshot.refresh_aggregates (s : PriceLevelSnapshot) : PriceLevelSnapshot :=
  { s with
    visible_quantity := (s.orders.map Order.visible_quantity).sum
    hidden_quantity := (s.orders.map Order.hidden_quantity).sum
    order_count := s.orders.length }

/-- `OrderBookSnapshot` (src/orderbook/snapshot.rs): symbol, timestamp and the
two lists of price-level snapshots. -/
structure OrderBookSnapshot where
  symbol : String
  timestamp : Nat
  bids : List PriceLevelSnapshot
  asks : List PriceLevelSnapshot
deriving DecidableEq, Repr

/-- `OrderBookSnapshot::refresh_aggregates` (snapshot.rs): refresh every bid
level, then every ask level. -/
def OrderBookSnapshot.refresh_aggregates (s : OrderBookSnapshot) : OrderBookSnapshot :=
  { s with
    bids := s.bids.map PriceLevelSnapshot.refresh_aggregates
    asks := s.asks.map PriceLevelSnapshot.refresh_aggregates }

/-- Modelled from the spec: the `OrderBookError` kinds used by the verified
operations (spec section 7; the repository file src/orderbook/error.rs is not
under src/). -/
inductive OrderBookError where
  | InvalidOperation (message : String)
  | ChecksumMismatch (expected actual : String)
  | SerializationError (message : String)
  | DeserializationError (message : String)
deriving DecidableEq, Repr

/-! ## SHA-256

`OrderBookSnapshotPackage::compute_checksum` hashes the JSON serialization of
the snapshot with SHA-256 (the `sha2` crate) and formats the digest as
lowercase hex.  SHA-256 is embedded here concretely (FIPS 180-4) over byte
lists, with 32-bit words as `Nat` reduced `% 2^32`. -/

/-- 2^32, the modulus of 32-bit word arithmetic. -/
def w32 : Nat := 4294967296

/-- 32-bit modular addition. -/
def add32 (a b : Nat) : Nat := (a + b) % w32

/-- 32-bit bitwise complement (for `a < 2^32`). -/
def not32 (a : Nat) : Nat := (w32 - 1) - a

/-- Right rotation of a 32-bit word. -/
def rotr32 (x n : Nat) : Nat := ((x >>> n) ||| (x <<< (32 - n))) % w32

/-- Element lookup in a list of words, defaulting to 0. -/
def nth (l : List Nat) (i : Nat) : Nat := (l.get? i).getD 0

/-- The SHA-256 round constants. -/
def sha256K : List Nat :=
  [1116352408, 1899447441, 3049323471, 3921009573, 961987163, 1508970993,
   2453635748, 2870763221, 3624381080, 310598401, 607225278, 1426881987,
   1925078388, 2162078206, 2614888103, 3248222580, 3835390401, 4022224774,
   264347078, 604807628, 770255983, 1249150122, 1555081692, 1996064986,
   2554220882, 2821834349, 2952996808, 3210313671, 3336571891, 3584528711,
   113926993, 338241895, 666307205, 773529912, 1294757372, 1396182291,
   1695183700, 1986661051, 2177026350, 2456956037, 2730485921, 2820302411,
   3259730800, 3345764771, 3516065817, 3600352804, 4094571909, 275423344,
   430227734, 506948616, 659060556, 883997877, 958139571, 1322822218,
   1537002063, 1747873779, 1955562222, 2024104815, 2227730452, 2361852424,
   2428436474, 2756734187, 3204031479, 3329325298]

/-- The SHA-256 initial hash value. -/
def sha256H0 : List Nat :=
  [1779033703, 3144134277, 1013904242, 2773480762,
   1359893119, 2600822924, 528734635, 1541459225]

/-- A 64-bit value as 8 big-endian bytes. -/
def be64 (n : Nat) : List Nat :=
  [(n >>> 56) % 256, (n >>> 48) % 256, (n >>> 40) % 256, (n >>> 32) % 256,
   (n >>> 24) % 256, (n >>> 16) % 256, (n >>> 8) % 256, n % 256]

/-- A 32-bit word as 4 big-endian bytes. -/
def be32 (n : Nat) : List Nat :=
  [(n >>> 24) % 256, (n >>> 16) % 256, (n >>> 8) % 256, n % 256]

/-- SHA-256 message padding: append `0x80`, zeros to 56 mod 64, then the
bit length as 8 big-endian bytes. -/
def sha256Pad (msg : List Nat) : List Nat :=
  let r := (msg.length + 1) % 64
  let zeros := (56 + 64 - r) % 64
  msg ++ [0x80] ++ List.replicate zeros 0 ++ be64 (8 * msg.length)

/-- Group 64 bytes into 16 big-endian 32-bit words. -/
def blockWords (block : List Nat) : List Nat :=
  (List.range 16).map (fun i =>
    nth block (4 * i) * 16777216 + nth block (4 * i + 1) * 65536 +
      nth block (4 * i + 2) * 256 + nth block (4 * i + 3))

/-- One extension step of the SHA-256 message schedule: append the next word. -/
def scheduleStep (w : List Nat) : List Nat :=
  let i := w.length
  let x := nth w (i - 15)
  let y := nth w (i - 2)
  let s0 := (rotr32 x 7) ^^^ (rotr32 x 18) ^^^ (x >>> 3)
  let s1 := (rotr32 y 17) ^^^ (rotr32 y 19) ^^^ (y >>> 10)
  w ++ [add32 (add32 (nth w (i - 16)) s0) (add32 (nth w (i - 7)) s1)]

/-- Extend the 16 block words to the 64-word message schedule. -/
def sha256Schedule (block : List Nat) : List Nat :=
  Nat.rec block (fun _ w => scheduleStep w) 48

/-- The SHA-256 working state (a,...,h). -/
structure Sha256State where
  a : Nat
  b : Nat
  c : Nat
  d : Nat
  e : Nat
  f : Nat
  g : Nat
  h : Nat

/-- One SHA-256 compression round. -/
def sha256Round (st : Sha256State) (k : Nat) (wi : Nat) : Sha256State :=
  let s1 := (rotr32 st.e 6) ^^^ (rotr32 st.e 11) ^^^ (rotr32 st.e 25)
  let ch := (st.e &&& st.f) ^^^ ((not32 st.e) &&& st.g)
  let t1 := add32 (add32 (add32 st.h s1) (add32 ch k)) wi
  let s0 := (rotr32 st.a 2) ^^^ (rotr32 st.a 13) ^^^ (rotr32 st.a 22)
  let mj := (st.a &&& st.b) ^^^ (st.a &&& st.c) ^^^ (st.b &&& st.c)
  let t2 := add32 s0 mj
  ⟨add32 t1 t2, st.a, st.b, st.c, add32 st.d t1, st.e, st.f, st.g⟩

/-- Compress one 64-byte block into the running hash value. -/
def sha256Block (hv : List Nat) (block : List Nat) : List Nat :=
  let w := sha256Schedule (blockWords block)
  let st0 : Sha256State :=
    ⟨nth hv 0, nth hv 1, nth hv 2, nth hv 3, nth hv 4, nth hv 5, nth hv 6, nth hv 7⟩
  let st := (List.range 64).foldl (fun st i => sha256Round st (nth sha256K i) (nth w i)) st0
  [add32 (nth hv 0) st.a, add32 (nth hv 1) st.b, add32 (nth hv 2) st.c, add32 (nth hv 3) st.d,
   add32 (nth hv 4) st.e, add32 (nth hv 5) st.f, add32 (nth hv 6) st.g, add32 (nth hv 7) st.h]

/-- Split a padded message into its 64-byte blocks (`n` counts the blocks). -/
def toBlocks : Nat → List Nat → List (List Nat)
  | 0, _ => []
  | n + 1, l => l.take 64 :: toBlocks n (l.drop 64)

/-- SHA-256 of a byte list, as the 32 digest bytes. -/
def sha256Bytes (msg : List Nat) : List Nat :=
  let padded := sha256Pad msg
  let hv := (toBlocks (padded.length / 64) padded).foldl sha256Block sha256H0
  hv.flatMap be32

/-- A byte as two lowercase hex characters (`Nat.digitChar` yields the
lowercase digits 0-f). -/
def byteToHex (b : Nat) : List Char :=
  [Nat.digitChar (b / 16 % 16), Nat.digitChar (b % 16)]

/-- Lowercase-hex SHA-256 of a byte list (`format!` with `:x` on the digest). -/
def sha256Hex (msg : List Nat) : String :=
  String.mk ((sha256Bytes msg).flatMap byteToHex)

/-- The bytes of a string (ASCII payloads; `Char.toNat` per character). -/
def strBytes (s : String) : List Nat := s.data.map Char.toNat

/-! ## JSON serialization of snapshots

`compute_checksum` hashes `serde_json::to_vec(snapshot)`.  The compact
serde_json output is embedded below: struct fields in declaration order, no
whitespace.  The layout of a serialized `PriceLevelSnapshot` follows the
snapshot JSON schema of spec section 6 (the `pricelevel` crate is external);
the order payload inside a level is modelled from the spec with the fields the
model carries.  Symbols are assumed to need no JSON string escaping. -/

/-- An opening brace as a string. -/
def lb : String := "\x7b"

/-- A closing brace as a string. -/
def rb : String := "\x7d"

/-- A JSON array from already-serialized items. -/
def jsonList (items : List String) : String :=
  "[" ++ String.intercalate "," items ++ "]"

/-- A JSON string (no escaping; symbols are assumed escape-free). -/
def jsonStr (s : String) : String := "\"" ++ s ++ "\""

/-- Modelled from the spec: the JSON payload of one order inside a level
snapshot (spec section 6 schema, `"orders": [ <Order> … ]`). -/
def Order.toJson (o : Order) : String :=
  lb ++ "\"id\":" ++ toString o.id ++
    ",\"visible_quantity\":" ++ toString o.visible_quantity ++
    ",\"hidden_quantity\":" ++ toString o.hidden_quantity ++ rb

/-- Modelled from the spec: the JSON payload of a `PriceLevelSnapshot`
(spec section 6 schema). -/
def PriceLevelSnapshot.toJson (s : PriceLevelSnapshot) : String :=
  lb ++ "\"price\":" ++ toString s.price ++
    ",\"visible_quantity\":" ++ toString s.visible_quantity ++
    ",\"hidden_quantity\":" ++ toString s.hidden_quantity ++
    ",\"order_count\":" ++ toString s.order_count ++
    ",\"orders\":" ++ jsonList (s.orders.map Order.toJson) ++ rb

/-- The JSON payload of an `OrderBookSnapshot` (struct fields in declaration
order, matching `serde_json::to_vec` on the derived `Serialize`). -/
def OrderBookSnapshot.toJson (s : OrderBookSnapshot) : String :=
  lb ++ "\"symbol\":" ++ jsonStr s.symbol ++
    ",\"timestamp\":" ++ toString s.timestamp ++
    ",\"bids\":" ++ jsonList (s.bids.map PriceLevelSnapshot.toJson) ++
    ",\"asks\":" ++ jsonList (s.asks.map PriceLevelSnapshot.toJson) ++ rb

/-! ## Snapshot package (src/orderbook/snapshot.rs) -/

/-- `ORDERBOOK_SNAPSHOT_FORMAT_VERSION` (snapshot.rs line 122). -/
def ORDERBOOK_SNAPSHOT_FORMAT_VERSION : Nat := 1

/-- `OrderBookSnapshotPackage` (snapshot.rs): version, payload, hex checksum. -/
structure OrderBookSnapshotPackage where
  version : Nat
  snapshot : OrderBookSnapshot
  checksum : String
deriving DecidableEq, Repr

/-- `OrderBookSnapshotPackage::compute_checksum` (snapshot.rs lines 191-202):
lowercase-hex SHA-256 of the JSON serialization of the snapshot.  The Rust
function returns `Result` only because `serde_json::to_vec` is fallible in
general; on these types serialization cannot fail, so the model is total. -/
def OrderBookSnapshotPackage.compute_checksum (snapshot : OrderBookSnapshot) : String :=
  sha256Hex (strBytes snapshot.toJson)

/-- `OrderBookSnapshotPackage::new` (snapshot.rs lines 135-147): refresh the
snapshot aggregates, then compute the checksum of the refreshed payload. -/
def OrderBookSnapshotPackage.new (snapshot : OrderBookSnapshot) : OrderBookSnapshotPackage :=
  let snapshot := snapshot.refresh_aggregates
  { version := ORDERBOOK_SNAPSHOT_FORMAT_VERSION
    snapshot := snapshot
    checksum := OrderBookSnapshotPackage.compute_checksum snapshot }

/-- `OrderBookSnapshotPackage::validate` (snapshot.rs lines 163-183): version
check first, then recompute the checksum and compare. -/
def OrderBookSnapshotPackage.validate (p : OrderBookSnapshotPackage) :
    Except OrderBookError Unit :=
  if p.version ≠ ORDERBOOK_SNAPSHOT_FORMAT_VERSION then
    Except.error (OrderBookError.InvalidOperation
      ("Unsupported snapshot version: " ++ toString p.version ++ " (expected " ++
        toString ORDERBOOK_SNAPSHOT_FORMAT_VERSION ++ ")"))
  else
    let computed := OrderBookSnapshotPackage.compute_checksum p.snapshot
    if computed ≠ p.checksum then
      Except.error (OrderBookError.ChecksumMismatch p.checksum computed)
    else
      Except.ok ()

/-- `OrderBookSnapshotPackage::into_snapshot` (snapshot.rs lines 185-189):
validate, then hand out the payload. -/
def OrderBookSnapshotPackage.into_snapshot (p : OrderBookSnapshotPackage) :
    Except OrderBookError OrderBookSnapshot :=
  match p.validate with
  | Except.error e => Except.error e
  | Except.ok _ => Except.ok p.snapshot

/-! ## The order book state (src/orderbook/book.rs)

The concurrent `SkipMap<u64, Arc<PriceLevel>>` sides are embedded as
association lists sorted strictly ascending by price key, so
`iter().next()` is the head and `iter().next_back()` is the last element.
The `DashMap<OrderId, (u64, Side)>` location index is an association list with
insert-overwrite semantics.  Claims about the book are stated at quiescent
points, so plain values suffice for the concurrent containers. -/

/-- Modelled from the spec: `PriceLevelCache` (the repository file
src/orderbook/cache.rs is not under src/): two optional best-price slots;
`get_cached_best_*` yields the slot when valid, `invalidate` clears both
(spec section 4.2). -/
structure PriceLevelCache where
  bid_price : Option Nat
  ask_price : Option Nat
deriving DecidableEq, Repr

/-- `PriceLevelCache::new` / the state after `invalidate()`: no valid slot. -/
def PriceLevelCache.empty : PriceLevelCache := ⟨none, none⟩

/-- The `OrderBook` state at a quiescent point (book.rs lines 29-75):
symbol, the two sorted sides, the location index, the atomic scalars and the
cache.  Listener and id-generator fields are not part of the state the
verified claims observe. -/
structure BookState where
  symbol : String
  bids : List (Nat × PriceLevel)
  asks : List (Nat × PriceLevel)
  order_locations : List (Nat × Nat × Side)
  last_trade_price : Nat
  has_traded : Bool
  market_close_timestamp : Nat
  has_market_close : Bool
  cache : PriceLevelCache
deriving DecidableEq, Repr

/-- The side map selected by a `Side` (bids for Buy, asks for Sell). -/
def BookState.sideMap (b : BookState) : Side → List (Nat × PriceLevel)
  | Side.Buy => b.bids
  | Side.Sell => b.asks

/-- Price keys of one side. -/
def sideKeys (m : List (Nat × PriceLevel)) : List Nat := m.map Prod.fst

/-- A side is sorted strictly ascending by price key (the `SkipMap` order). -/
def sortedSide (m : List (Nat × PriceLevel)) : Prop :=
  List.Pairwise (fun a b => a.1 < b.1) m

/-- `OrderBook::best_bid` (book.rs lines 399-410): serve the cached slot when
valid, otherwise the last (highest) key of the bid map.  The cache refresh the
Rust code performs on the miss path does not affect the returned value. -/
def BookState.best_bid (b : BookState) : Option Nat :=
  match b.cache.bid_price with
  | some cached => some cached
  | none => b.bids.getLast?.map Prod.fst

/-- `OrderBook::best_ask` (book.rs lines 416-427): serve the cached slot when
valid, otherwise the first (lowest) key of the ask map. -/
def BookState.best_ask (b : BookState) : Option Nat :=
  match b.cache.ask_price with
  | some cached => some cached
  | none => b.asks.head?.map Prod.fst

/-! ## Restore (book.rs lines 1814-1886) -/

/-- Insertion into a side sorted strictly ascending by key, overwriting an
existing entry at the same key (`SkipMap::insert`). -/
def insertSorted (m : List (Nat × PriceLevel)) (k : Nat) (v : PriceLevel) :
    List (Nat × PriceLevel) :=
  match m with
  | [] => [(k, v)]
  | (k', v') :: rest =>
    if k < k' then (k, v) :: (k', v') :: rest
    else if k = k' then (k, v) :: rest
    else (k', v') :: insertSorted rest k v

/-- Modelled from the spec: `PriceLevel::from(&PriceLevelSnapshot)` (external
`pricelevel` crate): a level holding the snapshot's order list at the
snapshot's price, aggregates recomputed (spec sections 4.1 and 4.5). -/
def PriceLevel.ofSnapshot (s : PriceLevelSnapshot) : PriceLevel :=
  ⟨s.price, s.orders⟩

/-- One side of the restored book: insert a level per level snapshot, in list
order (book.rs lines 1854-1866). -/
def buildSide (levels : List PriceLevelSnapshot) : List (Nat × PriceLevel) :=
  levels.foldl (fun m ls => insertSorted m ls.price (PriceLevel.ofSnapshot ls)) []

/-- `DashMap::insert` on the location index: overwrite the entry with this id,
or append a fresh one. -/
def insertLoc (locs : List (Nat × Nat × Side)) (id : Nat) (loc : Nat × Side) :
    List (Nat × Nat × Side) :=
  match locs with
  | [] => [(id, loc)]
  | (id', l') :: rest =>
    if id = id' then (id, loc) :: rest else (id', l') :: insertLoc rest id loc

/-- Location lookup (`DashMap::get`). -/
def lookupLoc (locs : List (Nat × Nat × Side)) (id : Nat) : Option (Nat × Side) :=
  (locs.find? (fun e => e.1 = id)).map Prod.snd

/-- The location-index rebuild scan over one side (book.rs lines 1869-1883):
for every level, insert `(order.id, (price, side))` for each contained
order. -/
def indexSide (s : Side) (m : List (Nat × PriceLevel)) (locs : List (Nat × Nat × Side)) :
    List (Nat × Nat × Side) :=
  m.foldl (fun locs e => e.2.orders.foldl (fun locs o => insertLoc locs o.id (e.1, s)) locs) locs

/-- `OrderBook::restore_from_snapshot` (book.rs lines 1829-1886): reject a
foreign symbol before touching any state; otherwise invalidate the cache,
clear both sides, the location index and the atomics, reinsert a level per
snapshot level, and rebuild the index by scanning bids then asks.  The pair
returned is (call result, state after the call). -/
def BookState.restore_from_snapshot (b : BookState) (snapshot : OrderBookSnapshot) :
    Except OrderBookError Unit × BookState :=
  if snapshot.symbol ≠ b.symbol then
    (Except.error (OrderBookError.InvalidOperation
      ("Snapshot symbol " ++ snapshot.symbol ++ " does not match order book symbol " ++
        b.symbol)), b)
  else
    let bids := buildSide snapshot.bids
    let asks := buildSide snapshot.asks
    let locs := indexSide Side.Sell asks (indexSide Side.Buy bids [])
    (Except.ok (),
      { symbol := b.symbol
        bids := bids
        asks := asks
        order_locations := locs
        last_trade_price := 0
        has_traded := false
        market_close_timestamp := 0
        has_market_close := false
        cache := PriceLevelCache.empty })

/-- `OrderBook::restore_from_snapshot_package` (book.rs lines 1815-1820):
validate through `into_snapshot`, then restore; a validation error leaves the
book untouched. -/
def BookState.restore_from_snapshot_package (b : BookState)
    (package : OrderBookSnapshotPackage) : Except OrderBookError Unit × BookState :=
  match package.into_snapshot with
  | Except.error e => (Except.error e, b)
  | Except.ok snapshot => b.restore_from_snapshot snapshot

/-! ## Book invariants (spec sections 3 and 8, claim C2's (1)-(5)) -/

/-- The level stored at a price on one side (`SkipMap::get`). -/
def levelLookup (m : List (Nat × PriceLevel)) (p : Nat) : Option PriceLevel :=
  (m.find? (fun e => e.1 = p)).map Prod.snd

/-- Invariant (1): every location-index entry resolves to exactly one order
with that id in the price level it names (the level exists and holds exactly
one order carrying the entry's id). -/
def invariantLocations (b : BookState) : Prop :=
  ∀ e ∈ b.order_locations,
    (levelLookup (b.sideMap e.2.2) e.2.1).map
      (fun lvl => (lvl.orders.filter (fun o => o.id = e.1)).length) = some 1

/-- Invariant (2): every order contained in either side is indexed. -/
def invariantIndexed (b : BookState) : Prop :=
  (∀ e ∈ b.bids, ∀ o ∈ e.2.orders, (lookupLoc b.order_locations o.id).isSome) ∧
  (∀ e ∈ b.asks, ∀ o ∈ e.2.orders, (lookupLoc b.order_locations o.id).isSome)

/-- Invariant (3): every bid key is strictly below every ask key (so in
particular the highest bid is below the lowest ask). -/
def invariantUncrossed (b : BookState) : Prop :=
  ∀ pb ∈ sideKeys b.bids, ∀ pa ∈ sideKeys b.asks, pb < pa

/-- Invariant (4): no empty price level remains in either map. -/
def invariantNoEmpty (b : BookState) : Prop :=
  (∀ e ∈ b.bids, e.2.orders ≠ []) ∧ (∀ e ∈ b.asks, e.2.orders ≠ [])

/-- Invariant (5): each cached best price, when present, agrees with the true
best price of its side. -/
def invariantCache (b : BookState) : Prop :=
  (b.cache.bid_price = none ∨ b.cache.bid_price = (sideKeys b.bids).max?) ∧
  (b.cache.ask_price = none ∨ b.cache.ask_price = (sideKeys b.asks).min?)

/-- Claim C2's invariants (1)-(5) as one predicate. -/
def bookInvariants (b : BookState) : Prop :=
  invariantLocations b ∧ invariantIndexed b ∧ invariantUncrossed b ∧
    invariantNoEmpty b ∧ invariantCache b

instance (b : BookState) : Decidable (invariantLocations b) := by
  unfold invariantLocations; infer_instance

instance (b : BookState) : Decidable (invariantIndexed b) := by
  unfold invariantIndexed; infer_instance

instance (b : BookState) : Decidable (invariantUncrossed b) := by
  unfold invariantUncrossed; infer_instance

instance (b : BookState) : Decidable (invariantNoEmpty b) := by
  unfold invariantNoEmpty; infer_instance

instance (b : BookState) : Decidable (invariantCache b) := by
  unfold invariantCache; infer_instance

instance (m : List (Nat × PriceLevel)) : Decidable (sortedSide m) := by
  unfold sortedSide; infer_instance

instance (b : BookState) : Decidable (bookInvariants b) := by
  unfold bookInvariants; infer_instance

/-- Well-formedness of a snapshot value, as a book's own snapshots satisfy it:
every included level carries a non-empty order list with pairwise-distinct
order ids, and every bid price is strictly below every ask price. -/
def snapshotWellFormed (s : OrderBookSnapshot) : Prop :=
  (∀ ls ∈ s.bids ++ s.asks, ls.orders ≠ [] ∧ (ls.orders.map Order.id).Nodup) ∧
  (∀ lb ∈ s.bids, ∀ la ∈ s.asks, lb.price < la.price)

instance (s : OrderBookSnapshot) : Decidable (snapshotWellFormed s) := by
  unfold snapshotWellFormed; infer_instance

/-! ## VWAP (book.rs lines 734-784) -/

/-- `u128::saturating_add`. -/
def satAdd128 (a b : Nat) : Nat := min (a + b) (2 ^ 128 - 1)

/-- `u64::saturating_add`. -/
def satAdd64 (a b : Nat) : Nat := min (a + b) (2 ^ 64 - 1)

/-- The VWAP accumulation loop (book.rs lines 760-777): walk the levels,
skip zero-availability levels, fill `min(remaining, available)` per level,
accumulate the cost in saturating 128-bit and the filled quantity in
saturating 64-bit arithmetic; stop once nothing remains.  Arguments after the
level list: remaining, total_cost, total_filled. -/
def vwapLoop : List (Nat × PriceLevel) → Nat → Nat → Nat → Nat × Nat
  | [], _, total_cost, total_filled => (total_cost, total_filled)
  | (price, lvl) :: rest, remaining, total_cost, total_filled =>
    if remaining = 0 then (total_cost, total_filled)
    else
      let available := lvl.total_quantity
      if available = 0 then vwapLoop rest remaining total_cost total_filled
      else
        let fill_qty := min remaining available
        vwapLoop rest (remaining - fill_qty) (satAdd128 total_cost (price * fill_qty))
          (satAdd64 total_filled fill_qty)

/-- `OrderBook::vwap` (book.rs lines 734-784): `None` for zero quantity or an
empty opposite side; otherwise walk asks ascending (Buy) or bids descending
(Sell), and return the mean cost only when the full quantity could be filled.
The final `f64` division of the Rust code is modelled as exact division in
`ℚ`. -/
def BookState.vwap (b : BookState) (quantity : Nat) (side : Side) : Option ℚ :=
  if quantity = 0 then none
  else
    let price_levels := match side with | Side.Buy => b.asks | Side.Sell => b.bids
    if price_levels.isEmpty then none
    else
      let iter := match side with
        | Side.Buy => price_levels
        | Side.Sell => price_levels.reverse
      let r := vwapLoop iter quantity 0 0
      if r.2 = quantity then some ((r.1 : ℚ) / (r.2 : ℚ)) else none

/-- The walk claim C5 describes, on (price, available) pairs in the traversal
order: each level fills `min(remaining, available)`. -/
def claimFills : List (Nat × Nat) → Nat → List (Nat × Nat)
  | [], _ => []
  | (p, available) :: rest, remaining =>
    let fill := min remaining available
    (p, fill) :: claimFills rest (remaining - fill)

/-- Total cost `Σ price_i * fill_i` of a fill list. -/
def fillCost (fills : List (Nat × Nat)) : Nat := (fills.map (fun f => f.1 * f.2)).sum

/-- Total filled quantity of a fill list. -/
def fillQty (fills : List (Nat × Nat)) : Nat := (fills.map Prod.snd).sum

/-- The (price, available) view of a side in traversal order. -/
def levelEntries (m : List (Nat × PriceLevel)) : List (Nat × Nat) :=
  m.map (fun e => (e.1, e.2.total_quantity))

/-- Total quantity resting on a side. -/
def totalSideQuantity (m : List (Nat × PriceLevel)) : Nat :=
  (m.map (fun e => e.2.total_quantity)).sum

/-- The side VWAP executes against: asks for a Buy, bids for a Sell. -/
def oppositeSide (b : BookState) : Side → List (Nat × PriceLevel)
  | Side.Buy => b.asks
  | Side.Sell => b.bids

/-- The VWAP traversal order of the opposite side: ascending ask prices for a
Buy, descending bid prices for a Sell. -/
def vwapIter (b : BookState) : Side → List (Nat × PriceLevel)
  | Side.Buy => b.asks
  | Side.Sell => b.bids.reverse

/-! ## BookManager (src/orderbook/manager.rs) -/

/-- A fresh order book for a symbol: empty sides, empty index, zeroed atomics,
empty cache (`OrderBook::new` / `with_trade_listener`, book.rs lines 292-332;
the listener itself is not part of the observed state). -/
def emptyBook (symbol : String) : BookState :=
  { symbol := symbol
    bids := []
    asks := []
    order_locations := []
    last_trade_price := 0
    has_traded := false
    market_close_timestamp := 0
    has_market_close := false
    cache := PriceLevelCache.empty }

/-- `BookManager` (manager.rs lines 21-31): the `HashMap<String, OrderBook>`
keyed by symbol, as an association list with distinct keys maintained by
insert-overwrite.  The trade-event channel carries no book state. -/
structure BookManager where
  books : List (String × BookState)
deriving DecidableEq, Repr

/-- `HashMap::insert`: overwrite the entry for this key or append a fresh
one. -/
def insertBook (books : List (String × BookState)) (symbol : String) (b : BookState) :
    List (String × BookState) :=
  match books with
  | [] => [(symbol, b)]
  | (s', b') :: rest =>
    if symbol = s' then (symbol, b) :: rest else (s', b') :: insertBook rest symbol b

/-- `BookManager::add_book` (manager.rs lines 49-71): construct a fresh book
for the symbol (with the channel-forwarding listener) and insert it, replacing
any existing book for that symbol; no error is reported. -/
def BookManager.add_book (m : BookManager) (symbol : String) : BookManager :=
  ⟨insertBook m.books symbol (emptyBook symbol)⟩

/-- `BookManager::get_book` (manager.rs lines 74-76). -/
def BookManager.get_book (m : BookManager) (symbol : String) : Option BookState :=
  (m.books.find? (fun e => e.1 = symbol)).map Prod.snd

/-- `BookManager::has_book` (manager.rs lines 98-100). -/
def BookManager.has_book (m : BookManager) (symbol : String) : Bool :=
  m.books.any (fun e => e.1 = symbol)

/-- `BookManager::book_count` (manager.rs lines 143-145): the key count of the
map (the association list keeps one entry per key). -/
def BookManager.book_count (m : BookManager) : Nat := m.books.length

/-! ## Match wrappers and the trade listener (book.rs lines 1684-1761) -/

/-- A `Transaction` of a `MatchResult` (spec section 3; the `pricelevel` crate
is external): the fields the routing layer observes. -/
structure Transaction where
  maker_order_id : Nat
  taker_order_id : Nat
  price : Nat
  quantity : Nat
deriving DecidableEq, Repr

/-- `MatchResult` (spec section 3): transaction list plus aggregates. -/
structure MatchResult where
  transactions : List Transaction
  remaining_quantity : Nat
  is_complete : Bool
deriving DecidableEq, Repr

/-- Modelled from the spec: `TradeResult::new(symbol, match_result)` (the
repository file src/orderbook/trade.rs is not under src/): the symbol paired
with the aggregated `MatchResult` (spec section 3). -/
structure TradeResult where
  symbol : String
  match_result : MatchResult
deriving DecidableEq, Repr

/-- `OrderBook::match_market_order` (book.rs lines 1684-1705), observed
through its result and the list of synchronous trade-listener invocations it
performs.  `inner` is the outcome of the delegated `match_order` call
(matching.rs is not under src/; per spec section 4.4 the engine itself invokes
no listener — the single invocation happens here, after the match, when a
listener is attached and at least one transaction was produced). -/
def matchMarketOrderCalls (symbol : String) (has_listener : Bool)
    (inner : Except OrderBookError MatchResult) :
    Except OrderBookError MatchResult × List TradeResult :=
  match inner with
  | Except.error e => (Except.error e, [])
  | Except.ok match_result =>
    if !match_result.transactions.isEmpty && has_listener then
      (Except.ok match_result, [⟨symbol, match_result⟩])
    else
      (Except.ok match_result, [])

/-- `OrderBook::match_limit_order` (book.rs lines 1738-1761): identical
post-processing to the market-order wrapper (the limit price only feeds the
delegated `match_order` call, absorbed into `inner`). -/
def matchLimitOrderCalls (symbol : String) (has_listener : Bool)
    (inner : Except OrderBookError MatchResult) :
    Except OrderBookError MatchResult × List TradeResult :=
  match inner with
  | Except.error e => (Except.error e, [])
  | Except.ok match_result =>
    if !match_result.transactions.isEmpty && has_listener then
      (Except.ok match_result, [⟨symbol, match_result⟩])
    else
      (Except.ok match_result, [])

/-! ## Implied-volatility solver (src/orderbook/implied_volatility/solver.rs)

`f64` values are modelled as exact rationals; the Black-Scholes pricer and
vega (black_scholes.rs, transcendental functions over `f64`) are kept abstract
as function parameters `price, vega : ℚ → ℚ`, as is the value of
`smart_initial_guess` (which divides by `0.4·S·√T`).  The claims under check
concern the solver's control flow, which is exactly representable. -/

/-- `OptionType` (types.rs). -/
inductive OptionType where
  | Call : OptionType
  | Put : OptionType
deriving DecidableEq, Repr

/-- `IVParams` (types.rs): spot, strike, time to expiry, rate, option type. -/
structure IVParams where
  spot : ℚ
  strike : ℚ
  time_to_expiry : ℚ
  risk_free_rate : ℚ
  option_type : OptionType
deriving DecidableEq, Repr

/-- `IVParams::intrinsic_value` (types.rs lines 114-119). -/
def IVParams.intrinsic_value (p : IVParams) : ℚ :=
  match p.option_type with
  | OptionType.Call => max (p.spot - p.strike) 0
  | OptionType.Put => max (p.strike - p.spot) 0

/-- `IVError` (implied_volatility/error.rs), with `f64` payloads as `ℚ`. -/
inductive IVError where
  | NoPriceAvailable
  | SpreadTooWide (spread_bps threshold_bps : ℚ)
  | ConvergenceFailure (iterations : Nat) (last_iv : ℚ)
  | InvalidParams (message : String)
  | PriceBelowIntrinsic (price intrinsic : ℚ)
  | TimeToExpiryTooSmall (time_to_expiry min_time : ℚ)
  | VolatilityOutOfBounds (volatility min_bound max_bound : ℚ)
deriving DecidableEq, Repr

/-- `SolverConfig` (solver.rs lines 12-25). -/
structure SolverConfig where
  max_iterations : Nat
  tolerance : ℚ
  initial_guess : ℚ
  min_iv : ℚ
  max_iv : ℚ
  min_vega : ℚ
deriving DecidableEq, Repr

/-- `SolverConfig::default` (solver.rs lines 27-38). -/
def SolverConfig.default : SolverConfig :=
  { max_iterations := 100
    tolerance := 1 / 100000000
    initial_guess := 1 / 4
    min_iv := 1 / 1000
    max_iv := 5
    min_vega := 1 / 10000000000 }

/-- `f64::clamp(lo, hi)`. -/
def clampQ (x lo hi : ℚ) : ℚ := if x < lo then lo else if hi < x then hi else x

/-- `f64::signum` (on the values reached here, never at zero). -/
def signumQ (x : ℚ) : ℚ := if 0 < x then 1 else if x < 0 then -1 else 0

/-- `validate_params` (solver.rs lines 85-117): positive spot and strike,
non-negative expiry, minimum expiry `1/(365·24)`. -/
def validate_params (params : IVParams) : Except IVError Unit :=
  if params.spot ≤ 0 then
    Except.error (IVError.InvalidParams "spot price must be positive")
  else if params.strike ≤ 0 then
    Except.error (IVError.InvalidParams "strike price must be positive")
  else if params.time_to_expiry < 0 then
    Except.error (IVError.InvalidParams "time to expiry must be non-negative")
  else if params.time_to_expiry < 1 / 8760 then
    Except.error (IVError.TimeToExpiryTooSmall params.time_to_expiry (1 / 8760))
  else
    Except.ok ()

/-- The Newton-Raphson loop of `solve_iv` (solver.rs lines 201-250), with fuel
counting the iterations still allowed and `iteration` the 0-based index the
Rust `for` loop is at.  Exhausted fuel is the post-loop `ConvergenceFailure`
carrying `config.max_iterations` and the last estimate. -/
def solveIvGo (price vega : ℚ → ℚ) (cfg : SolverConfig) (market_price : ℚ) :
    Nat → Nat → ℚ → Except IVError (ℚ × Nat)
  | 0, _, iv => Except.error (IVError.ConvergenceFailure cfg.max_iterations iv)
  | fuel + 1, iteration, iv =>
    let diff := price iv - market_price
    if |diff| < cfg.tolerance then
      if iv < cfg.min_iv ∨ iv > cfg.max_iv then
        Except.error (IVError.VolatilityOutOfBounds iv cfg.min_iv cfg.max_iv)
      else
        Except.ok (iv, iteration + 1)
    else
      let v := vega iv
      let iv' :=
        if |v| < cfg.min_vega then
          if diff > 0 then iv * (9 / 10) else iv * (11 / 10)
        else
          let step := diff / v
          let damped_step := if |step| > 1 / 2 then signumQ step * (1 / 2) else step
          iv - damped_step
      solveIvGo price vega cfg market_price fuel (iteration + 1)
        (clampQ iv' cfg.min_iv cfg.max_iv)

/-- `solve_iv` (solver.rs lines 167-251): validation, the initial-guess
selection (`smart_guess` stands for the value of `smart_initial_guess`),
clamping of the start value, then the Newton-Raphson loop. -/
def solve_iv (price vega : ℚ → ℚ) (smart_guess : ℚ) (params : IVParams)
    (market_price : ℚ) (cfg : SolverConfig) : Except IVError (ℚ × Nat) :=
  match validate_params params with
  | Except.error e => Except.error e
  | Except.ok _ =>
    if market_price ≤ 0 then
      Except.error (IVError.InvalidParams "market price must be positive")
    else
      let intrinsic := params.intrinsic_value
      if market_price < intrinsic - cfg.tolerance then
        Except.error (IVError.PriceBelowIntrinsic market_price intrinsic)
      else
        let iv := if |cfg.initial_guess - 1 / 4| < 1 / 10000000000 then smart_guess
          else cfg.initial_guess
        solveIvGo price vega cfg market_price cfg.max_iterations 0
          (clampQ iv cfg.min_iv cfg.max_iv)

/-- The iteration update claim C6 describes: a Newton step with its magnitude
capped at 0.5 when |vega| ≥ min_vega, otherwise ×0.9 when overpriced and
×1.1 when underpriced. -/
def claimNextIv (price vega : ℚ → ℚ) (cfg : SolverConfig) (market_price iv : ℚ) : ℚ :=
  if |vega iv| < cfg.min_vega then
    if price iv - market_price > 0 then iv * (9 / 10) else iv * (11 / 10)
  else
    iv - clampQ ((price iv - market_price) / vega iv) (-(1 / 2)) (1 / 2)

/-- The Newton-Raphson scheme exactly as claim C6 states it: succeed as soon
as `|BS(σ) − market_price| < tolerance`, otherwise apply `claimNextIv`, clamp
to the bounds, and report `ConvergenceFailure` with `max_iterations` and the
last estimate once the iteration budget is spent. -/
def claimSolveGo (price vega : ℚ → ℚ) (cfg : SolverConfig) (market_price : ℚ) :
    Nat → Nat → ℚ → Except IVError (ℚ × Nat)
  | 0, _, iv => Except.error (IVError.ConvergenceFailure cfg.max_iterations iv)
  | fuel + 1, iteration, iv =>
    if |price iv - market_price| < cfg.tolerance then
      Except.ok (iv, iteration + 1)
    else
      claimSolveGo price vega cfg market_price fuel (iteration + 1)
        (clampQ (claimNextIv price vega cfg market_price iv) cfg.min_iv cfg.max_iv)

/-! # Theorems -/

/-! ## C1: package validation -/

/-- C1: `validate()` succeeds exactly when the version equals 1 and the stored
checksum equals the lowercase-hex SHA-256 of the JSON serialization of the
snapshot (`compute_checksum`); with a matching version but a deviating
checksum it fails with `ChecksumMismatch` whose `expected` is the stored and
whose `actual` is the recomputed checksum; with any other version it fails
with `InvalidOperation`. -/
theorem validate_checks_version_and_checksum (p : OrderBookSnapshotPackage) :
    (p.validate = Except.ok () ↔
      p.version = 1 ∧ p.checksum = OrderBookSnapshotPackage.compute_checksum p.snapshot) ∧
    (p.version = 1 → p.checksum ≠ OrderBookSnapshotPackage.compute_checksum p.snapshot →
      p.validate = Except.error (OrderBookError.ChecksumMismatch p.checksum
        (OrderBookSnapshotPackage.compute_checksum p.snapshot))) ∧
    (p.version ≠ 1 →
      ∃ message, p.validate = Except.error (OrderBookError.InvalidOperation message)) := by
  refine ⟨⟨?_, ?_⟩, ?_, ?_⟩
  · intro h
    unfold OrderBookSnapshotPackage.validate ORDERBOOK_SNAPSHOT_FORMAT_VERSION at h
    by_cases hv : p.version = 1
    · refine ⟨hv, ?_⟩
      by_cases hc : OrderBookSnapshotPackage.compute_checksum p.snapshot = p.checksum
      · exact hc.symm
      · simp [hv, hc] at h
    · simp [hv] at h
  · rintro ⟨hv, hc⟩
    unfold OrderBookSnapshotPackage.validate ORDERBOOK_SNAPSHOT_FORMAT_VERSION
    simp [hv, ← hc]
  · intro hv hc
    unfold OrderBookSnapshotPackage.validate ORDERBOOK_SNAPSHOT_FORMAT_VERSION
    simp [hv, Ne.symm hc]
  · intro hv
    unfold OrderBookSnapshotPackage.validate ORDERBOOK_SNAPSHOT_FORMAT_VERSION
    refine ⟨"Unsupported snapshot version: " ++ toString p.version ++ " (expected " ++
      toString 1 ++ ")", ?_⟩
    rw [if_pos hv]

/-- Witness for C1: a concrete version-1 package with a corrupted checksum
fails with `ChecksumMismatch` carrying the stored and the recomputed value,
and corrupting makes the success condition false. -/
theorem validate_checks_version_and_checksum_witness :
    (OrderBookSnapshotPackage.mk 1 ⟨"BTC/USD", 7, [], []⟩ "deadbeef").validate =
      Except.error (OrderBookError.ChecksumMismatch "deadbeef"
        (OrderBookSnapshotPackage.compute_checksum ⟨"BTC/USD", 7, [], []⟩)) :=
  (validate_checks_version_and_checksum _).2.1 rfl (by decide)

/-! ## C3: restore is atomic on error -/

/-- C3: a snapshot whose symbol deviates from the book's is rejected with
`InvalidOperation` and the book state after the call is the state before it;
a package failing validation propagates that validation error and likewise
leaves the book untouched. -/
theorem restore_atomic_on_error (b : BookState) (s : OrderBookSnapshot)
    (pkg : OrderBookSnapshotPackage) :
    (s.symbol ≠ b.symbol →
      b.restore_from_snapshot s =
        (Except.error (OrderBookError.InvalidOperation
          ("Snapshot symbol " ++ s.symbol ++ " does not match order book symbol " ++
            b.symbol)), b)) ∧
    (∀ e, pkg.validate = Except.error e →
      b.restore_from_snapshot_package pkg = (Except.error e, b)) := by
  constructor
  · intro h
    unfold BookState.restore_from_snapshot
    simp [h]
  · intro e he
    unfold BookState.restore_from_snapshot_package OrderBookSnapshotPackage.into_snapshot
    simp [he]

/-- Witness for C3: restoring a "ETH" snapshot into a "BTC" book errors and
returns the book unchanged, as does restoring a version-2 package. -/
theorem restore_atomic_on_error_witness :
    ((emptyBook "BTC").restore_from_snapshot ⟨"ETH", 0, [], []⟩ =
      (Except.error (OrderBookError.InvalidOperation
        ("Snapshot symbol " ++ "ETH" ++ " does not match order book symbol " ++ "BTC")),
        emptyBook "BTC")) ∧
    ((emptyBook "BTC").restore_from_snapshot_package ⟨2, ⟨"BTC", 0, [], []⟩, "c"⟩ =
      (Except.error (OrderBookError.InvalidOperation
        "Unsupported snapshot version: 2 (expected 1)"), emptyBook "BTC")) :=
  ⟨(restore_atomic_on_error (emptyBook "BTC") ⟨"ETH", 0, [], []⟩
      ⟨2, ⟨"BTC", 0, [], []⟩, "c"⟩).1 (by decide),
   (restore_atomic_on_error (emptyBook "BTC") ⟨"ETH", 0, [], []⟩
      ⟨2, ⟨"BTC", 0, [], []⟩, "c"⟩).2 _ (by decide)⟩

/-! ## C9: package construction refreshes aggregates first -/

/-- C9: `OrderBookSnapshotPackage::new` recomputes every level's aggregates
from its order list before hashing, so the stored payload is the refreshed
snapshot and the checksum is that of the refreshed payload; on a concrete
snapshot whose stored aggregates disagree with its orders, the packaged
snapshot deviates from the input and the checksum deviates from the checksum
of the unrefreshed input. -/
theorem package_new_refreshes_before_hashing (s : OrderBookSnapshot) :
    ((OrderBookSnapshotPackage.new s).version = 1 ∧
     (OrderBookSnapshotPackage.new s).snapshot = s.refresh_aggregates ∧
     (OrderBookSnapshotPackage.new s).checksum =
       OrderBookSnapshotPackage.compute_checksum s.refresh_aggregates ∧
     (OrderBookSnapshotPackage.new s).validate = Except.ok ()) ∧
    (∃ s0 : OrderBookSnapshot, s0.refresh_aggregates ≠ s0 ∧
      (OrderBookSnapshotPackage.new s0).snapshot ≠ s0 ∧
      (OrderBookSnapshotPackage.new s0).checksum ≠
        OrderBookSnapshotPackage.compute_checksum s0) := by
  constructor
  · refine ⟨rfl, rfl, rfl, ?_⟩
    unfold OrderBookSnapshotPackage.validate OrderBookSnapshotPackage.new
      ORDERBOOK_SNAPSHOT_FORMAT_VERSION
    simp
  · exact ⟨⟨"X", 0, [⟨100, 7, 7, 7, [⟨1, 3, 0⟩]⟩], []⟩, by decide, by decide, by decide⟩

/-! ## C10: add_book replaces silently -/

/-- Looking up the just-inserted key yields the just-inserted book. -/
theorem insertBook_find (books : List (String × BookState)) (symbol : String) (b : BookState) :
    (insertBook books symbol b).find? (fun e => e.1 = symbol) = some (symbol, b) := by
  induction books with
  | nil => simp [insertBook]
  | cons e rest ih =>
    by_cases hs : symbol = e.1
    · simp [insertBook, hs]
    · simpa [insertBook, hs, Ne.symm hs] using ih

/-- Inserting over a present key keeps the entry count. -/
theorem insertBook_length_of_mem (books : List (String × BookState)) (symbol : String)
    (b : BookState) (h : books.any (fun e => e.1 = symbol) = true) :
    (insertBook books symbol b).length = books.length := by
  induction books with
  | nil => simp at h
  | cons e rest ih =>
    by_cases hs : symbol = e.1
    · simp [insertBook, hs]
    · have hrest : rest.any (fun e => e.1 = symbol) = true := by
        simpa [Ne.symm hs] using h
      simp [insertBook, hs, ih hrest]

/-- C10: on a symbol that already has a registered book, `add_book` puts a
fresh empty book there (the function is total, so no error is reported),
`has_book` stays true and `book_count` is unchanged. -/
theorem add_book_replaces_existing (m : BookManager) (symbol : String)
    (h : m.has_book symbol = true) :
    (m.add_book symbol).get_book symbol = some (emptyBook symbol) ∧
    (m.add_book symbol).has_book symbol = true ∧
    (m.add_book symbol).book_count = m.book_count := by
  obtain ⟨books⟩ := m
  refine ⟨?_, ?_, ?_⟩
  · show ((insertBook books symbol _).find? _).map Prod.snd = _
    rw [insertBook_find]
    rfl
  · show (insertBook books symbol _).any _ = true
    have := insertBook_find books symbol (emptyBook symbol)
    exact List.any_eq_true.2 ⟨(symbol, emptyBook symbol), List.mem_of_find?_eq_some this,
      by simp⟩
  · exact insertBook_length_of_mem books symbol _ h

/-- Witness for C10: re-adding "BTC" to a manager that has a "BTC" book and an
"ETH" book replaces the "BTC" book with a fresh one, keeps it registered and
keeps the count at 2. -/
theorem add_book_replaces_existing_witness :
    ((BookManager.mk [("BTC", emptyBook "BTC"), ("ETH", emptyBook "ETH")]).add_book
        "BTC").get_book "BTC" = some (emptyBook "BTC") ∧
    ((BookManager.mk [("BTC", emptyBook "BTC"), ("ETH", emptyBook "ETH")]).add_book
        "BTC").has_book "BTC" = true ∧
    ((BookManager.mk [("BTC", emptyBook "BTC"), ("ETH", emptyBook "ETH")]).add_book
        "BTC").book_count =
      (BookManager.mk [("BTC", emptyBook "BTC"), ("ETH", emptyBook "ETH")]).book_count :=
  add_book_replaces_existing
    (BookManager.mk [("BTC", emptyBook "BTC"), ("ETH", emptyBook "ETH")]) "BTC" (by decide)

/-! ## C4: best prices -/

/-- A list's last element is one of its members. -/
theorem mem_of_getLast?_eq : ∀ (l : List Nat) (m : Nat), l.getLast? = some m → m ∈ l
  | [], _, h => by simp at h
  | [a], m, h => by
    simp only [List.getLast?_singleton, Option.some.injEq] at h
    simp [h]
  | a :: b :: t, m, h => by
    rw [List.getLast?_cons_cons] at h
    exact List.mem_cons_of_mem a (mem_of_getLast?_eq (b :: t) m h)

/-- On a strictly ascending list the maximum is the last element. -/
theorem sorted_max?_eq_getLast? :
    ∀ (l : List Nat), List.Pairwise (· < ·) l → l.max? = l.getLast?
  | [], _ => rfl
  | [a], _ => by simp [List.max?_cons]
  | a :: b :: t, h => by
    have ih := sorted_max?_eq_getLast? (b :: t) h.of_cons
    obtain ⟨m, hm⟩ : ∃ m, (b :: t).max? = some m := by
      rw [List.max?_cons]; exact ⟨_, rfl⟩
    have hmem : m ∈ b :: t := List.max?_mem (fun x y => max_choice x y) hm
    have ham : a < m := (List.pairwise_cons.1 h).1 m hmem
    rw [List.getLast?_cons_cons, ← ih, hm, List.max?_cons, hm]
    simp [max_eq_right ham.le]

/-- On a strictly ascending list the minimum is the head. -/
theorem sorted_min?_eq_head? :
    ∀ (l : List Nat), List.Pairwise (· < ·) l → l.min? = l.head?
  | [], _ => rfl
  | a :: t, h => by
    cases t with
    | nil => simp [List.min?_cons]
    | cons b t' =>
      obtain ⟨m, hm⟩ : ∃ m, (b :: t').min? = some m := by
        rw [List.min?_cons]; exact ⟨_, rfl⟩
      have hmem : m ∈ b :: t' := List.min?_mem (fun x y => min_choice x y) hm
      have ham : a < m := (List.pairwise_cons.1 h).1 m hmem
      rw [List.min?_cons, hm]
      simp [min_eq_left ham.le]

/-- C4: at a quiescent point of a well-formed book (sides sorted as the
`SkipMap` keeps them, cache agreeing with the side contents when set),
`best_bid()` is the maximum bid key and `best_ask()` the minimum ask key —
`max?`/`min?` being `some` of the extremum on a non-empty side and `none` on
an empty one — whether the value is served from the cache or recomputed. -/
theorem best_prices_agree (b : BookState)
    (hb : sortedSide b.bids) (ha : sortedSide b.asks) (hc : invariantCache b) :
    b.best_bid = (sideKeys b.bids).max? ∧ b.best_ask = (sideKeys b.asks).min? := by
  constructor
  · unfold BookState.best_bid
    cases hcb : b.cache.bid_price with
    | none =>
      have hkeys : List.Pairwise (· < ·) (sideKeys b.bids) :=
        List.pairwise_map.2 hb
      rw [sorted_max?_eq_getLast? _ hkeys]
      unfold sideKeys
      rw [List.getLast?_map]
    | some v =>
      rcases hc.1 with h | h
      · rw [hcb] at h; cases h
      · rw [hcb] at h; exact h
  · unfold BookState.best_ask
    cases hca : b.cache.ask_price with
    | none =>
      have hkeys : List.Pairwise (· < ·) (sideKeys b.asks) :=
        List.pairwise_map.2 ha
      rw [sorted_min?_eq_head? _ hkeys]
      unfold sideKeys
      rw [List.head?_map]
    | some v =>
      rcases hc.2 with h | h
      · rw [hca] at h; cases h
      · rw [hca] at h; exact h

/-- Witness for C4: a concrete two-level bid side and one-level ask side with
both cache slots set; best bid is the bid-key maximum, best ask the ask-key
minimum. -/
theorem best_prices_agree_witness :
    (BookState.mk "S" [(5, ⟨5, [⟨1, 1, 0⟩]⟩), (7, ⟨7, [⟨2, 1, 0⟩]⟩)]
        [(9, ⟨9, [⟨3, 1, 0⟩]⟩)] [] 0 false 0 false ⟨some 7, some 9⟩).best_bid =
      (sideKeys (BookState.mk "S" [(5, ⟨5, [⟨1, 1, 0⟩]⟩), (7, ⟨7, [⟨2, 1, 0⟩]⟩)]
        [(9, ⟨9, [⟨3, 1, 0⟩]⟩)] [] 0 false 0 false ⟨some 7, some 9⟩).bids).max? ∧
    (BookState.mk "S" [(5, ⟨5, [⟨1, 1, 0⟩]⟩), (7, ⟨7, [⟨2, 1, 0⟩]⟩)]
        [(9, ⟨9, [⟨3, 1, 0⟩]⟩)] [] 0 false 0 false ⟨some 7, some 9⟩).best_ask =
      (sideKeys (BookState.mk "S" [(5, ⟨5, [⟨1, 1, 0⟩]⟩), (7, ⟨7, [⟨2, 1, 0⟩]⟩)]
        [(9, ⟨9, [⟨3, 1, 0⟩]⟩)] [] 0 false 0 false ⟨some 7, some 9⟩).asks).min? :=
  best_prices_agree _ (by decide) (by decide) (by decide)

/-! ## C5: VWAP -/

/-- A walk with nothing remaining fills and costs nothing. -/
theorem claimFills_zero (l : List (Nat × Nat)) :
    fillCost (claimFills l 0) = 0 ∧ fillQty (claimFills l 0) = 0 := by
  induction l with
  | nil => exact ⟨rfl, rfl⟩
  | cons e rest ih =>
    obtain ⟨p, a⟩ := e
    simpa [claimFills, fillCost, fillQty] using ih

/-- The walk fills `min(remaining, total availability)`. -/
theorem fillQty_claimFills (l : List (Nat × Nat)) :
    ∀ r, fillQty (claimFills l r) = min r (l.map Prod.snd).sum := by
  induction l with
  | nil => intro r; simp [claimFills, fillQty]
  | cons e rest ih =>
    intro r
    obtain ⟨p, a⟩ := e
    have hstep : claimFills ((p, a) :: rest) r =
        (p, min r a) :: claimFills rest (r - min r a) := rfl
    have hq : fillQty ((p, min r a) :: claimFills rest (r - min r a)) =
        min r a + fillQty (claimFills rest (r - min r a)) := by
      simp [fillQty]
    rw [hstep, hq, ih (r - min r a)]
    simp only [List.map_cons, List.sum_cons]
    omega

/-- The VWAP loop never saturates under 64-bit prices and quantity: it
produces exactly the cost and quantity of the claimed walk, on top of its
accumulators. -/
theorem vwapLoop_eq_claimFills :
    ∀ (levels : List (Nat × PriceLevel)) (remaining cost filled : Nat),
    (∀ e ∈ levels, e.1 < 2 ^ 64) → remaining + filled < 2 ^ 64 →
    cost ≤ (2 ^ 64 - 1) * filled →
    vwapLoop levels remaining cost filled =
      (cost + fillCost (claimFills (levelEntries levels) remaining),
       filled + fillQty (claimFills (levelEntries levels) remaining)) := by
  intro levels
  induction levels with
  | nil =>
    intro remaining cost filled _ _ _
    simp [vwapLoop, levelEntries, claimFills, fillCost, fillQty]
  | cons e rest ih =>
    obtain ⟨p, lvl⟩ := e
    intro remaining cost filled hp hb hc
    have hentry : levelEntries ((p, lvl) :: rest) =
        (p, lvl.total_quantity) :: levelEntries rest := rfl
    by_cases hr : remaining = 0
    · subst hr
      obtain ⟨hz1, hz2⟩ := claimFills_zero (levelEntries ((p, lvl) :: rest))
      simp [vwapLoop, hz1, hz2]
    · by_cases hav : lvl.total_quantity = 0
      · have hstep : vwapLoop ((p, lvl) :: rest) remaining cost filled =
            vwapLoop rest remaining cost filled := by
          simp [vwapLoop, hr, hav]
        rw [hstep, ih remaining cost filled
          (fun x hx => hp x (List.mem_cons_of_mem _ hx)) hb hc, hentry]
        simp [claimFills, hav, fillCost, fillQty]
      · have hple : p ≤ 2 ^ 64 - 1 := by
          have := hp (p, lvl) (by simp)
          omega
        have hfr : min remaining lvl.total_quantity ≤ remaining := Nat.min_le_left _ _
        have hcost' : cost + p * min remaining lvl.total_quantity ≤
            (2 ^ 64 - 1) * (filled + min remaining lvl.total_quantity) := by
          calc cost + p * min remaining lvl.total_quantity ≤
              (2 ^ 64 - 1) * filled +
                (2 ^ 64 - 1) * min remaining lvl.total_quantity :=
                Nat.add_le_add hc (Nat.mul_le_mul_right _ hple)
            _ = (2 ^ 64 - 1) * (filled + min remaining lvl.total_quantity) := by ring
        have hfl : filled + min remaining lvl.total_quantity ≤ 2 ^ 64 - 1 := by omega
        have hsat128 : satAdd128 cost (p * min remaining lvl.total_quantity) =
            cost + p * min remaining lvl.total_quantity := by
          have h2 : (2 ^ 64 - 1) * (filled + min remaining lvl.total_quantity) ≤
              ((2 : ℕ) ^ 64 - 1) * ((2 : ℕ) ^ 64 - 1) := Nat.mul_le_mul_left _ hfl
          have h3 : ((2 : ℕ) ^ 64 - 1) * ((2 : ℕ) ^ 64 - 1) ≤ 2 ^ 128 - 1 := by norm_num
          unfold satAdd128
          omega
        have hsat64 : satAdd64 filled (min remaining lvl.total_quantity) =
            filled + min remaining lvl.total_quantity := by
          unfold satAdd64
          omega
        have hstep : vwapLoop ((p, lvl) :: rest) remaining cost filled =
            vwapLoop rest (remaining - min remaining lvl.total_quantity)
              (cost + p * min remaining lvl.total_quantity)
              (filled + min remaining lvl.total_quantity) := by
          rw [vwapLoop]
          simp only [hr, if_false, hav, hsat128, hsat64]
        have hfillstep : claimFills (levelEntries ((p, lvl) :: rest)) remaining =
            (p, min remaining lvl.total_quantity) ::
              claimFills (levelEntries rest)
                (remaining - min remaining lvl.total_quantity) := rfl
        rw [hstep, ih _ _ _ (fun x hx => hp x (List.mem_cons_of_mem _ hx))
          (by omega) hcost', hfillstep]
        simp [fillCost, fillQty]
        constructor <;> ring

/-- C5: on a well-formed book with 64-bit prices and a 64-bit requested
quantity, `vwap(q, side)` is `None` exactly when `q = 0` or the opposite side
rests less than `q` in total; otherwise it is `Σ(price_i · fill_i) / q` over
the walk that consumes the opposite side best-first (ascending asks for a
Buy, descending bids for a Sell) — the saturating 128-bit cost accumulator is
never saturated in that range, so the sum is exact. -/
theorem vwap_walks_opposite_side (b : BookState) (q : Nat) (side : Side)
    (hq : q < 2 ^ 64)
    (hp : ∀ e ∈ oppositeSide b side, e.1 < 2 ^ 64)
    (_hbs : sortedSide b.bids) (_has : sortedSide b.asks) :
    (b.vwap q side = none ↔ q = 0 ∨ totalSideQuantity (oppositeSide b side) < q) ∧
    (q ≠ 0 → q ≤ totalSideQuantity (oppositeSide b side) →
      b.vwap q side =
        some ((fillCost (claimFills (levelEntries (vwapIter b side)) q) : ℚ) / (q : ℚ))) := by
  have hiter : ∀ x ∈ vwapIter b side, x.1 < 2 ^ 64 := by
    intro x hx
    apply hp
    cases side with
    | Buy => exact hx
    | Sell => exact (List.mem_reverse).1 hx
  have htot : totalSideQuantity (vwapIter b side) = totalSideQuantity (oppositeSide b side) := by
    cases side with
    | Buy => rfl
    | Sell =>
      unfold vwapIter oppositeSide totalSideQuantity
      rw [List.map_reverse, List.sum_reverse]
  by_cases hq0 : q = 0
  · subst hq0
    constructor
    · simp [BookState.vwap]
    · intro h; exact absurd rfl h
  · have hrun := vwapLoop_eq_claimFills (vwapIter b side) q 0 0 hiter (by omega)
      (by simp)
    have hqty : fillQty (claimFills (levelEntries (vwapIter b side)) q) =
        min q (totalSideQuantity (vwapIter b side)) := by
      rw [fillQty_claimFills]
      unfold levelEntries totalSideQuantity
      rw [List.map_map]
      rfl
    by_cases hemp : (match side with | Side.Buy => b.asks | Side.Sell => b.bids) = []
    · have hvnone : b.vwap q side = none := by
        unfold BookState.vwap
        simp [hq0, hemp]
      have hz : totalSideQuantity (oppositeSide b side) = 0 := by
        cases side with
        | Buy => simp [oppositeSide, show b.asks = [] from hemp, totalSideQuantity]
        | Sell => simp [oppositeSide, show b.bids = [] from hemp, totalSideQuantity]
      constructor
      · simp [hvnone, hz]
        omega
      · intro _ hge
        rw [hz] at hge
        omega
    · have hvwap : b.vwap q side =
          (if (vwapLoop (vwapIter b side) q 0 0).2 = q then
            some (((vwapLoop (vwapIter b side) q 0 0).1 : ℚ) /
              ((vwapLoop (vwapIter b side) q 0 0).2 : ℚ)) else none) := by
        unfold BookState.vwap
        rw [if_neg hq0]
        cases side with
        | Buy =>
          rw [if_neg (by simpa [List.isEmpty_iff] using hemp)]
          rfl
        | Sell =>
          rw [if_neg (by simpa [List.isEmpty_iff] using hemp)]
          rfl
      rw [hrun] at hvwap
      simp only [Nat.zero_add] at hvwap
      constructor
      · rw [hvwap]
        rcases Nat.lt_or_ge (totalSideQuantity (oppositeSide b side)) q with hlt | hge
        · have hfull : ¬fillQty (claimFills (levelEntries (vwapIter b side)) q) = q := by
            rw [hqty, htot]; omega
          rw [if_neg hfull]
          constructor
          · intro _; exact Or.inr hlt
          · intro _; rfl
        · have hfull : fillQty (claimFills (levelEntries (vwapIter b side)) q) = q := by
            rw [hqty, htot]; omega
          rw [if_pos hfull]
          constructor
          · intro h; exact absurd h (Option.some_ne_none _)
          · rintro (h | h)
            · exact absurd h hq0
            · omega
      · intro _ hge
        have hfull : fillQty (claimFills (levelEntries (vwapIter b side)) q) = q := by
          rw [hqty, htot]
          omega
        rw [hvwap, if_pos hfull, hfull]

/-- Witness for C5: buying 20 against asks {100: 10, 105: 15} gives
(100·10 + 105·10)/20; the None condition matches insufficient liquidity. -/
theorem vwap_walks_opposite_side_witness :
    ((BookState.mk "S" [] [(100, ⟨100, [⟨1, 10, 0⟩]⟩), (105, ⟨105, [⟨2, 15, 0⟩]⟩)]
        [] 0 false 0 false ⟨none, none⟩).vwap 20 Side.Buy = none ↔
      20 = 0 ∨ totalSideQuantity (oppositeSide
        (BookState.mk "S" [] [(100, ⟨100, [⟨1, 10, 0⟩]⟩), (105, ⟨105, [⟨2, 15, 0⟩]⟩)]
          [] 0 false 0 false ⟨none, none⟩) Side.Buy) < 20) ∧
    (20 ≠ 0 → 20 ≤ totalSideQuantity (oppositeSide
        (BookState.mk "S" [] [(100, ⟨100, [⟨1, 10, 0⟩]⟩), (105, ⟨105, [⟨2, 15, 0⟩]⟩)]
          [] 0 false 0 false ⟨none, none⟩) Side.Buy) →
      (BookState.mk "S" [] [(100, ⟨100, [⟨1, 10, 0⟩]⟩), (105, ⟨105, [⟨2, 15, 0⟩]⟩)]
          [] 0 false 0 false ⟨none, none⟩).vwap 20 Side.Buy =
        some ((fillCost (claimFills (levelEntries (vwapIter
          (BookState.mk "S" [] [(100, ⟨100, [⟨1, 10, 0⟩]⟩), (105, ⟨105, [⟨2, 15, 0⟩]⟩)]
            [] 0 false 0 false ⟨none, none⟩) Side.Buy)) 20) : ℚ) / (20 : ℚ))) :=
  vwap_walks_opposite_side _ 20 Side.Buy (by decide) (by decide) (by decide) (by decide)

/-! ## C7: trade-listener invocation -/

/-- C7: with a listener attached and the delegated match producing a result,
both wrappers return that result and invoke the listener exactly once,
synchronously, with the symbol-tagged `TradeResult` — precisely when the
result carries at least one transaction; a transaction-free result triggers
no invocation. -/
theorem trade_listener_invoked_iff_transactions (symbol : String)
    (inner : Except OrderBookError MatchResult) (mr : MatchResult)
    (h : inner = Except.ok mr) :
    (matchMarketOrderCalls symbol true inner =
      (Except.ok mr, if mr.transactions = [] then [] else [⟨symbol, mr⟩])) ∧
    (matchLimitOrderCalls symbol true inner =
      (Except.ok mr, if mr.transactions = [] then [] else [⟨symbol, mr⟩])) := by
  subst h
  by_cases ht : mr.transactions = [] <;>
    simp [matchMarketOrderCalls, matchLimitOrderCalls, ht, List.isEmpty_iff]

/-- Witness for C7: a one-transaction result invokes the listener once with
the tagged result; an empty result invokes it not at all. -/
theorem trade_listener_invoked_iff_transactions_witness :
    (matchMarketOrderCalls "BTC" true (Except.ok ⟨[⟨1, 2, 100, 5⟩], 0, true⟩) =
      (Except.ok ⟨[⟨1, 2, 100, 5⟩], 0, true⟩, [⟨"BTC", ⟨[⟨1, 2, 100, 5⟩], 0, true⟩⟩])) ∧
    (matchLimitOrderCalls "BTC" true (Except.ok ⟨[], 7, false⟩) =
      (Except.ok ⟨[], 7, false⟩, [])) :=
  ⟨by
    have h := trade_listener_invoked_iff_transactions "BTC"
      (Except.ok ⟨[⟨1, 2, 100, 5⟩], 0, true⟩) ⟨[⟨1, 2, 100, 5⟩], 0, true⟩ rfl
    simpa using h.1,
   by
    have h := trade_listener_invoked_iff_transactions "BTC"
      (Except.ok ⟨[], 7, false⟩) ⟨[], 7, false⟩ rfl
    simpa using h.2⟩

/-! ## C6 and C8: the Newton-Raphson solver -/

/-- Clamping with ordered bounds lands inside the bounds. -/
theorem clampQ_mem (x lo hi : ℚ) (h : lo ≤ hi) :
    lo ≤ clampQ x lo hi ∧ clampQ x lo hi ≤ hi := by
  unfold clampQ
  split_ifs <;> constructor <;> linarith

/-- The source's sign-damped step is the claim's magnitude cap at 0.5. -/
theorem damped_step_eq_clamp (step : ℚ) :
    (if |step| > 1 / 2 then signumQ step * (1 / 2) else step) =
      clampQ step (-(1 / 2)) (1 / 2) := by
  rcases abs_cases step with ⟨h1, h2⟩ | ⟨h1, h2⟩ <;>
  · rw [h1]
    unfold clampQ signumQ
    split_ifs <;> first | rfl | linarith

/-- Every estimate the loop tests is inside the clamped range, so the bounds
check on the convergence path never fires: an `Ok` result is in bounds and
`VolatilityOutOfBounds` is never produced. -/
theorem solveIvGo_bounds (price vega : ℚ → ℚ) (cfg : SolverConfig) (mp : ℚ)
    (hb : cfg.min_iv ≤ cfg.max_iv) :
    ∀ (fuel iteration : Nat) (iv : ℚ), cfg.min_iv ≤ iv → iv ≤ cfg.max_iv →
      (∀ r n, solveIvGo price vega cfg mp fuel iteration iv = Except.ok (r, n) →
        cfg.min_iv ≤ r ∧ r ≤ cfg.max_iv) ∧
      (∀ v lo hi, solveIvGo price vega cfg mp fuel iteration iv ≠
        Except.error (IVError.VolatilityOutOfBounds v lo hi)) := by
  intro fuel
  induction fuel with
  | zero =>
    intro iteration iv h1 h2
    constructor
    · intro r n hok
      cases hok
    · intro v lo hi hvoob
      cases hvoob
  | succ n ih =>
    intro iteration iv h1 h2
    simp only [solveIvGo]
    by_cases hconv : |price iv - mp| < cfg.tolerance
    · rw [if_pos hconv, if_neg (by push_neg; exact ⟨h1, h2⟩)]
      constructor
      · intro r m hok
        cases hok
        exact ⟨h1, h2⟩
      · intro v lo hi hvoob
        cases hvoob
    · rw [if_neg hconv]
      obtain ⟨hc1, hc2⟩ := clampQ_mem
        (if |vega iv| < cfg.min_vega then
          if price iv - mp > 0 then iv * (9 / 10) else iv * (11 / 10)
        else iv - (if |(price iv - mp) / vega iv| > 1 / 2 then
          signumQ ((price iv - mp) / vega iv) * (1 / 2) else (price iv - mp) / vega iv))
        cfg.min_iv cfg.max_iv hb
      exact ih (iteration + 1) _ hc1 hc2

/-- `validate_params` never produces `VolatilityOutOfBounds`. -/
theorem validate_params_not_voob (params : IVParams) :
    ∀ v lo hi, validate_params params ≠
      Except.error (IVError.VolatilityOutOfBounds v lo hi) := by
  unfold validate_params
  split_ifs <;> intro v lo hi h <;> cases h

/-- C8: with ordered bounds, whenever `solve_iv` returns `Ok((iv, n))` the
volatility lies in `[min_iv, max_iv]`, and the `VolatilityOutOfBounds` branch
inside the convergence check is unreachable — the candidate is clamped into
the bounds before the first iteration and after every step, so it is already
in bounds when the convergence test passes. -/
theorem solve_iv_result_in_bounds (price vega : ℚ → ℚ) (smart_guess : ℚ)
    (params : IVParams) (mp : ℚ) (cfg : SolverConfig)
    (hb : cfg.min_iv ≤ cfg.max_iv) :
    (∀ iv n, solve_iv price vega smart_guess params mp cfg = Except.ok (iv, n) →
      cfg.min_iv ≤ iv ∧ iv ≤ cfg.max_iv) ∧
    (∀ v lo hi, solve_iv price vega smart_guess params mp cfg ≠
      Except.error (IVError.VolatilityOutOfBounds v lo hi)) := by
  unfold solve_iv
  cases hval : validate_params params with
  | error e =>
    constructor
    · intro iv n hok
      cases hok
    · intro v lo hi h
      apply validate_params_not_voob params v lo hi
      rw [hval]
      cases h
      rfl
  | ok u =>
    by_cases hmp : mp ≤ 0
    · rw [if_pos hmp]
      exact ⟨fun iv n hok => (by cases hok), fun v lo hi h => (by simp at h)⟩
    · rw [if_neg hmp]
      by_cases hint : mp < params.intrinsic_value - cfg.tolerance
      · rw [if_pos hint]
        exact ⟨fun iv n hok => (by cases hok), fun v lo hi h => (by simp at h)⟩
      · rw [if_neg hint]
        obtain ⟨hc1, hc2⟩ := clampQ_mem
          (if |cfg.initial_guess - 1 / 4| < 1 / 10000000000 then smart_guess
            else cfg.initial_guess) cfg.min_iv cfg.max_iv hb
        exact solveIvGo_bounds price vega cfg mp hb cfg.max_iterations 0 _ hc1 hc2

/-- Witness for C8: the solver on a linear toy pricer with the default config
returns an in-bounds volatility and never `VolatilityOutOfBounds`. -/
theorem solve_iv_result_in_bounds_witness :
    (∀ iv n, solve_iv (fun x => x) (fun _ => 1) (3 / 10)
        ⟨100, 100, 1 / 4, 1 / 20, OptionType.Call⟩ (1 / 4) SolverConfig.default =
        Except.ok (iv, n) →
      SolverConfig.default.min_iv ≤ iv ∧ iv ≤ SolverConfig.default.max_iv) ∧
    (∀ v lo hi, solve_iv (fun x => x) (fun _ => 1) (3 / 10)
        ⟨100, 100, 1 / 4, 1 / 20, OptionType.Call⟩ (1 / 4) SolverConfig.default ≠
      Except.error (IVError.VolatilityOutOfBounds v lo hi)) :=
  solve_iv_result_in_bounds (fun x => x) (fun _ => 1) (3 / 10)
    ⟨100, 100, 1 / 4, 1 / 20, OptionType.Call⟩ (1 / 4) SolverConfig.default
    (by norm_num [SolverConfig.default])

/-- C6: with ordered bounds the solver's loop coincides, from any in-bounds
estimate, with the scheme the claim describes (success exactly when
`|BS(σ) − p| < tolerance`; Newton step with magnitude capped at 0.5 when
`|vega| ≥ min_vega`, else ×0.9 / ×1.1; clamp after every step;
`ConvergenceFailure{max_iterations, last_iv}` when the budget is spent);
`solve_iv` itself runs that scheme from the initial guess clamped into
`[min_iv, max_iv]`; and the default configuration is `max_iterations = 100`,
`tolerance = 1e-8`, `min_iv = 0.001`, `max_iv = 5.0`, `min_vega = 1e-10`. -/
theorem solver_follows_claimed_scheme (price vega : ℚ → ℚ) (cfg : SolverConfig)
    (mp : ℚ) (hb : cfg.min_iv ≤ cfg.max_iv) :
    (∀ (fuel iteration : Nat) (iv : ℚ), cfg.min_iv ≤ iv → iv ≤ cfg.max_iv →
      solveIvGo price vega cfg mp fuel iteration iv =
        claimSolveGo price vega cfg mp fuel iteration iv) ∧
    (∀ (smart_guess : ℚ) (params : IVParams), validate_params params = Except.ok () →
      ¬mp ≤ 0 → ¬mp < params.intrinsic_value - cfg.tolerance →
      solve_iv price vega smart_guess params mp cfg =
        claimSolveGo price vega cfg mp cfg.max_iterations 0
          (clampQ (if |cfg.initial_guess - 1 / 4| < 1 / 10000000000 then smart_guess
            else cfg.initial_guess) cfg.min_iv cfg.max_iv)) ∧
    SolverConfig.default.max_iterations = 100 ∧
    SolverConfig.default.tolerance = 1 / 100000000 ∧
    SolverConfig.default.min_iv = 1 / 1000 ∧
    SolverConfig.default.max_iv = 5 ∧
    SolverConfig.default.min_vega = 1 / 10000000000 := by
  have hloop : ∀ (fuel iteration : Nat) (iv : ℚ), cfg.min_iv ≤ iv → iv ≤ cfg.max_iv →
      solveIvGo price vega cfg mp fuel iteration iv =
        claimSolveGo price vega cfg mp fuel iteration iv := by
    intro fuel
    induction fuel with
    | zero => intro iteration iv _ _; rfl
    | succ n ih =>
      intro iteration iv h1 h2
      simp only [solveIvGo, claimSolveGo]
      by_cases hconv : |price iv - mp| < cfg.tolerance
      · rw [if_pos hconv, if_pos hconv,
          if_neg (by push_neg; exact ⟨h1, h2⟩)]
      · rw [if_neg hconv, if_neg hconv]
        have hnext : (if |vega iv| < cfg.min_vega then
            if price iv - mp > 0 then iv * (9 / 10) else iv * (11 / 10)
          else iv - (if |(price iv - mp) / vega iv| > 1 / 2 then
            signumQ ((price iv - mp) / vega iv) * (1 / 2)
            else (price iv - mp) / vega iv)) =
            claimNextIv price vega cfg mp iv := by
          unfold claimNextIv
          by_cases hveg : |vega iv| < cfg.min_vega
          · rw [if_pos hveg, if_pos hveg]
          · rw [if_neg hveg, if_neg hveg, damped_step_eq_clamp]
        rw [hnext]
        obtain ⟨hc1, hc2⟩ :=
          clampQ_mem (claimNextIv price vega cfg mp iv) cfg.min_iv cfg.max_iv hb
        exact ih (iteration + 1) _ hc1 hc2
  refine ⟨hloop, ?_, rfl, rfl, rfl, rfl, rfl⟩
  intro smart_guess params hval hmp hint
  unfold solve_iv
  rw [hval, if_neg hmp, if_neg hint]
  obtain ⟨hc1, hc2⟩ := clampQ_mem
    (if |cfg.initial_guess - 1 / 4| < 1 / 10000000000 then smart_guess
      else cfg.initial_guess) cfg.min_iv cfg.max_iv hb
  exact hloop cfg.max_iterations 0 _ hc1 hc2

/-- Witness for C6: on a linear toy pricer with the default configuration the
loop agrees with the claimed scheme and `solve_iv` runs it from the clamped
start. -/
theorem solver_follows_claimed_scheme_witness :
    solveIvGo (fun x => x) (fun _ => 1) SolverConfig.default (1 / 4) 3 0 (1 / 2) =
      claimSolveGo (fun x => x) (fun _ => 1) SolverConfig.default (1 / 4) 3 0 (1 / 2) ∧
    solve_iv (fun x => x) (fun _ => 1) (3 / 10)
        ⟨100, 100, 1 / 4, 1 / 20, OptionType.Call⟩ (1 / 4) SolverConfig.default =
      claimSolveGo (fun x => x) (fun _ => 1) SolverConfig.default (1 / 4)
        SolverConfig.default.max_iterations 0
        (clampQ (if |SolverConfig.default.initial_guess - 1 / 4| < 1 / 10000000000
          then (3 / 10) else SolverConfig.default.initial_guess)
          SolverConfig.default.min_iv SolverConfig.default.max_iv) :=
  ⟨(solver_follows_claimed_scheme (fun x => x) (fun _ => 1) SolverConfig.default
      (1 / 4) (by norm_num [SolverConfig.default])).1 3 0 (1 / 2)
      (by norm_num [SolverConfig.default]) (by norm_num [SolverConfig.default]),
   (solver_follows_claimed_scheme (fun x => x) (fun _ => 1) SolverConfig.default
      (1 / 4) (by norm_num [SolverConfig.default])).2.1 (3 / 10)
      ⟨100, 100, 1 / 4, 1 / 20, OptionType.Call⟩
      (by norm_num [validate_params]) (by norm_num)
      (by norm_num [IVParams.intrinsic_value, SolverConfig.default])⟩

/-! ## C2: restore establishes the invariants -/

/-- Entries of a sorted insertion come from the old side or are the new
entry. -/
theorem mem_insertSorted (m : List (Nat × PriceLevel)) (k : Nat) (v : PriceLevel) :
    ∀ e ∈ insertSorted m k v, e ∈ m ∨ e = (k, v) := by
  induction m with
  | nil =>
    intro e he
    simp [insertSorted] at he
    exact Or.inr he
  | cons hd rest ih =>
    obtain ⟨k', v'⟩ := hd
    intro e he
    unfold insertSorted at he
    split_ifs at he with h1 h2
    · rcases List.mem_cons.1 he with rfl | he
      · exact Or.inr rfl
      · exact Or.inl he
    · rcases List.mem_cons.1 he with rfl | he
      · exact Or.inr rfl
      · exact Or.inl (List.mem_cons_of_mem _ he)
    · rcases List.mem_cons.1 he with rfl | he
      · exact Or.inl (List.mem_cons_self _ _)
      · rcases ih e he with he' | he'
        · exact Or.inl (List.mem_cons_of_mem _ he')
        · exact Or.inr he'

/-- Sorted insertion keeps the side strictly sorted. -/
theorem insertSorted_sorted (k : Nat) (v : PriceLevel) :
    ∀ m, sortedSide m → sortedSide (insertSorted m k v) := by
  intro m
  induction m with
  | nil =>
    intro _
    simp [insertSorted, sortedSide]
  | cons hd rest ih =>
    obtain ⟨k', v'⟩ := hd
    intro hs
    obtain ⟨hhd, hrest⟩ := List.pairwise_cons.1 hs
    unfold insertSorted
    split_ifs with h1 h2
    · refine List.pairwise_cons.2 ⟨?_, hs⟩
      intro e he
      rcases List.mem_cons.1 he with rfl | he
      · exact h1
      · exact lt_trans h1 (hhd e he)
    · subst h2
      exact List.pairwise_cons.2 ⟨hhd, hrest⟩
    · refine List.pairwise_cons.2 ⟨?_, ih hrest⟩
      intro e he
      rcases mem_insertSorted rest k v e he with he' | rfl
      · exact hhd e he'
      · omega

/-- Folding sorted insertions over a sorted accumulator stays sorted. -/
theorem foldl_insertSorted_sorted (levels : List PriceLevelSnapshot) :
    ∀ acc, sortedSide acc →
      sortedSide (levels.foldl
        (fun m ls => insertSorted m ls.price (PriceLevel.ofSnapshot ls)) acc) := by
  induction levels with
  | nil => intro acc h; exact h
  | cons ls rest ih =>
    intro acc h
    exact ih _ (insertSorted_sorted ls.price (PriceLevel.ofSnapshot ls) acc h)

/-- A restored side is sorted. -/
theorem buildSide_sorted (levels : List PriceLevelSnapshot) : sortedSide (buildSide levels) :=
  foldl_insertSorted_sorted levels [] (by simp [sortedSide])

/-- Entries of the insertion fold come from the accumulator or from one of the
level snapshots. -/
theorem mem_foldl_insertSorted (levels : List PriceLevelSnapshot) :
    ∀ acc e, e ∈ levels.foldl
        (fun m ls => insertSorted m ls.price (PriceLevel.ofSnapshot ls)) acc →
      e ∈ acc ∨ ∃ ls ∈ levels, e = (ls.price, PriceLevel.ofSnapshot ls) := by
  induction levels with
  | nil =>
    intro acc e he
    exact Or.inl he
  | cons ls rest ih =>
    intro acc e he
    rcases ih _ e he with he' | ⟨ls', hls', rfl⟩
    · rcases mem_insertSorted acc ls.price (PriceLevel.ofSnapshot ls) e he' with h | rfl
      · exact Or.inl h
      · exact Or.inr ⟨ls, List.mem_cons_self _ _, rfl⟩
    · exact Or.inr ⟨ls', List.mem_cons_of_mem _ hls', rfl⟩

/-- Every entry of a restored side is the level built from one of the
snapshot's levels. -/
theorem mem_buildSide (levels : List PriceLevelSnapshot) (e : Nat × PriceLevel)
    (he : e ∈ buildSide levels) :
    ∃ ls ∈ levels, e = (ls.price, PriceLevel.ofSnapshot ls) := by
  rcases mem_foldl_insertSorted levels [] e he with h | h
  · cases h
  · exact h

/-- On a sorted side, `find?` at a member's key returns that member. -/
theorem find?_of_sorted_mem :
    ∀ (m : List (Nat × PriceLevel)) (p : Nat) (lvl : PriceLevel), sortedSide m →
      (p, lvl) ∈ m → m.find? (fun e => e.1 = p) = some (p, lvl) := by
  intro m
  induction m with
  | nil =>
    intro p lvl _ hmem
    cases hmem
  | cons hd rest ih =>
    obtain ⟨k', v'⟩ := hd
    intro p lvl hs hmem
    obtain ⟨hhd, hrest⟩ := List.pairwise_cons.1 hs
    rcases List.mem_cons.1 hmem with heq | hmem'
    · obtain ⟨rfl, rfl⟩ := Prod.mk.injEq .. ▸ heq
      injection heq with h1 h2
      simp [List.find?]
    · have hlt : k' < p := hhd (p, lvl) hmem'
      have : (fun e : Nat × PriceLevel => decide (e.1 = p)) (k', v') = false := by
        simp
        omega
      rw [List.find?_cons_of_neg _ (by simpa using this), ih p lvl hrest hmem']

/-- An insert-overwrite entry is the new pair or one of the old ones. -/
theorem mem_insertLoc (locs : List (Nat × Nat × Side)) (id : Nat) (loc : Nat × Side) :
    ∀ e ∈ insertLoc locs id loc, e = (id, loc) ∨ e ∈ locs := by
  induction locs with
  | nil =>
    intro e he
    simp [insertLoc] at he
    exact Or.inl he
  | cons hd rest ih =>
    obtain ⟨id', l'⟩ := hd
    intro e he
    unfold insertLoc at he
    split_ifs at he with h1
    · rcases List.mem_cons.1 he with rfl | he
      · exact Or.inl rfl
      · exact Or.inr (List.mem_cons_of_mem _ he)
    · rcases List.mem_cons.1 he with rfl | he
      · exact Or.inr (List.mem_cons_self _ _)
      · rcases ih e he with h | h
        · exact Or.inl h
        · exact Or.inr (List.mem_cons_of_mem _ h)

/-- Looking up the just-overwritten id yields the new location. -/
theorem lookupLoc_insert_self (locs : List (Nat × Nat × Side)) (id : Nat) (loc : Nat × Side) :
    lookupLoc (insertLoc locs id loc) id = some loc := by
  induction locs with
  | nil => simp [insertLoc, lookupLoc]
  | cons hd rest ih =>
    obtain ⟨id', l'⟩ := hd
    unfold insertLoc
    split_ifs with h1
    · simp [lookupLoc]
    · unfold lookupLoc
      rw [List.find?_cons_of_neg _ (by simpa using Ne.symm h1)]
      exact ih

/-- Overwriting one id leaves the lookup of any other id unchanged. -/
theorem lookupLoc_insert_other (locs : List (Nat × Nat × Side)) (id id' : Nat)
    (loc : Nat × Side) (h : id' ≠ id) :
    lookupLoc (insertLoc locs id loc) id' = lookupLoc locs id' := by
  induction locs with
  | nil => simp [insertLoc, lookupLoc, Ne.symm h]
  | cons hd rest ih =>
    obtain ⟨id2, l2⟩ := hd
    unfold insertLoc
    split_ifs with h1
    · subst h1
      unfold lookupLoc
      rw [List.find?_cons_of_neg _ (by simpa using Ne.symm h),
        List.find?_cons_of_neg _ (by simpa using Ne.symm h)]
    · by_cases h2 : id2 = id'
      · subst h2
        unfold lookupLoc
        rw [List.find?_cons_of_pos _ (by simp), List.find?_cons_of_pos _ (by simp)]
      · unfold lookupLoc
        rw [List.find?_cons_of_neg _ (by simpa using h2),
          List.find?_cons_of_neg _ (by simpa using h2)]
        exact ih

/-- Insert-overwrite never drops a present id. -/
theorem lookupLoc_insert_isSome (locs : List (Nat × Nat × Side)) (id id' : Nat)
    (loc : Nat × Side) (h : (lookupLoc locs id').isSome) :
    (lookupLoc (insertLoc locs id loc) id').isSome := by
  by_cases he : id' = id
  · subst he
    rw [lookupLoc_insert_self]
    rfl
  · rw [lookupLoc_insert_other locs id id' loc he]
    exact h

/-- Entries after indexing one level's orders come from the accumulator or
from one of the orders. -/
theorem mem_foldl_insertLoc (orders : List Order) (p : Nat) (sd : Side) :
    ∀ acc e, e ∈ orders.foldl (fun l o => insertLoc l o.id (p, sd)) acc →
      e ∈ acc ∨ ∃ o ∈ orders, e = (o.id, (p, sd)) := by
  induction orders with
  | nil =>
    intro acc e he
    exact Or.inl he
  | cons o rest ih =>
    intro acc e he
    rcases ih _ e he with he' | ⟨o', ho', rfl⟩
    · rcases mem_insertLoc acc o.id (p, sd) e he' with rfl | h
      · exact Or.inr ⟨o, List.mem_cons_self _ _, rfl⟩
      · exact Or.inl h
    · exact Or.inr ⟨o', List.mem_cons_of_mem _ ho', rfl⟩

/-- Indexing one level's orders never drops a present id. -/
theorem isSome_foldl_insertLoc_mono (orders : List Order) (p : Nat) (sd : Side) :
    ∀ acc id, (lookupLoc acc id).isSome →
      (lookupLoc (orders.foldl (fun l o => insertLoc l o.id (p, sd)) acc) id).isSome := by
  induction orders with
  | nil => intro acc id h; exact h
  | cons o rest ih =>
    intro acc id h
    exact ih _ id (lookupLoc_insert_isSome acc o.id id (p, sd) h)

/-- Indexing one level's orders indexes each of them. -/
theorem isSome_foldl_insertLoc_mem (orders : List Order) (p : Nat) (sd : Side) :
    ∀ acc o, o ∈ orders →
      (lookupLoc (orders.foldl (fun l o => insertLoc l o.id (p, sd)) acc) o.id).isSome := by
  induction orders with
  | nil =>
    intro acc o ho
    cases ho
  | cons o' rest ih =>
    intro acc o ho
    rcases List.mem_cons.1 ho with rfl | ho'
    · exact isSome_foldl_insertLoc_mono rest p sd _ o.id
        (by rw [lookupLoc_insert_self]; rfl)
    · exact ih _ o ho'

/-- Entries after the rebuild scan of one side come from the accumulator or
name an order of one of the side's levels with that level's price. -/
theorem mem_indexSide (sd : Side) :
    ∀ (m : List (Nat × PriceLevel)) acc e, e ∈ indexSide sd m acc →
      e ∈ acc ∨ ∃ pl ∈ m, ∃ o ∈ pl.2.orders, e = (o.id, (pl.1, sd)) := by
  intro m
  induction m with
  | nil =>
    intro acc e he
    exact Or.inl he
  | cons pl rest ih =>
    intro acc e he
    rcases ih _ e he with he' | ⟨pl', hpl', o, ho, rfl⟩
    · rcases mem_foldl_insertLoc pl.2.orders pl.1 sd acc e he' with h | ⟨o, ho, rfl⟩
      · exact Or.inl h
      · exact Or.inr ⟨pl, List.mem_cons_self _ _, o, ho, rfl⟩
    · exact Or.inr ⟨pl', List.mem_cons_of_mem _ hpl', o, ho, rfl⟩

/-- The rebuild scan never drops a present id. -/
theorem isSome_indexSide_mono (sd : Side) :
    ∀ (m : List (Nat × PriceLevel)) acc id, (lookupLoc acc id).isSome →
      (lookupLoc (indexSide sd m acc) id).isSome := by
  intro m
  induction m with
  | nil => intro acc id h; exact h
  | cons pl rest ih =>
    intro acc id h
    exact ih _ id (isSome_foldl_insertLoc_mono pl.2.orders pl.1 sd acc id h)

/-- The rebuild scan indexes every order of every level of the side. -/
theorem isSome_indexSide_mem (sd : Side) :
    ∀ (m : List (Nat × PriceLevel)) acc pl o, pl ∈ m → o ∈ pl.2.orders →
      (lookupLoc (indexSide sd m acc) o.id).isSome := by
  intro m
  induction m with
  | nil =>
    intro acc pl o hpl _
    cases hpl
  | cons hd rest ih =>
    intro acc pl o hpl ho
    rcases List.mem_cons.1 hpl with rfl | hpl'
    · exact isSome_indexSide_mono sd rest _ o.id
        (isSome_foldl_insertLoc_mem pl.2.orders pl.1 sd acc o ho)
    · exact ih _ pl o hpl' ho

/-- No order with an absent id passes the id filter. -/
theorem filter_id_eq_nil (l : List Order) (i : Nat) (h : i ∉ l.map Order.id) :
    l.filter (fun x => x.id = i) = [] := by
  induction l with
  | nil => rfl
  | cons x rest ih =>
    have hx : x.id ≠ i := by
      intro he
      exact h (by simp [← he])
    have hrest : i ∉ rest.map Order.id := by
      intro he
      exact h (by simp [he])
    simp [List.filter, hx, ih hrest]

/-- With pairwise-distinct ids, the filter at a member's id keeps exactly that
member. -/
theorem filter_id_length_one (l : List Order) (o : Order)
    (hnd : (l.map Order.id).Nodup) (ho : o ∈ l) :
    (l.filter (fun x => x.id = o.id)).length = 1 := by
  induction l with
  | nil => cases ho
  | cons x rest ih =>
    obtain ⟨hx, hrest⟩ := List.pairwise_cons.1 hnd
    by_cases hid : x.id = o.id
    · have hnotin : o.id ∉ rest.map Order.id := by
        intro hmem
        exact absurd rfl (hid ▸ hx o.id hmem)
      simp [List.filter, hid, filter_id_eq_nil rest o.id hnotin]
    · have ho' : o ∈ rest := by
        rcases List.mem_cons.1 ho with rfl | h
        · exact absurd rfl hid
        · exact h
      rw [List.filter_cons_of_neg (by simpa using hid)]
      exact ih hrest ho'

/-- C2 (amended): for a snapshot with the book's symbol that is additionally
well-formed — non-empty levels with pairwise-distinct order ids, bid prices
strictly below ask prices — `restore_from_snapshot` succeeds and the restored
book satisfies invariants (1)-(5).  (The unamended claim, over all
symbol-matching snapshots, fails: see the counterexample.) -/
theorem restore_establishes_invariants (b : BookState) (s : OrderBookSnapshot)
    (hsym : s.symbol = b.symbol) (hwf : snapshotWellFormed s) :
    (b.restore_from_snapshot s).1 = Except.ok () ∧
    bookInvariants (b.restore_from_snapshot s).2 := by
  have hres : b.restore_from_snapshot s =
      (Except.ok (),
        { symbol := b.symbol
          bids := buildSide s.bids
          asks := buildSide s.asks
          order_locations := indexSide Side.Sell (buildSide s.asks)
            (indexSide Side.Buy (buildSide s.bids) [])
          last_trade_price := 0
          has_traded := false
          market_close_timestamp := 0
          has_market_close := false
          cache := PriceLevelCache.empty }) := by
    unfold BookState.restore_from_snapshot
    rw [if_neg (by simp [hsym])]
  rw [hres]
  refine ⟨rfl, ?_, ?_, ?_, ?_, ?_⟩
  · -- invariant (1): every index entry resolves to exactly one order
    intro e he
    have hcase : ∀ (sd : Side) (levels : List PriceLevelSnapshot)
        (pl : Nat × PriceLevel) (o : Order), pl ∈ buildSide levels → o ∈ pl.2.orders →
        (∀ ls ∈ levels, ls.orders ≠ [] ∧ (ls.orders.map Order.id).Nodup) →
        (levelLookup (buildSide levels) pl.1).map
          (fun lvl => (lvl.orders.filter (fun x => x.id = o.id)).length) = some 1 := by
      intro sd levels pl o hpl ho hlevels
      obtain ⟨ls, hls, hpl_eq⟩ := mem_buildSide levels pl hpl
      have hfind : (buildSide levels).find? (fun x => x.1 = pl.1) = some (pl.1, pl.2) :=
        find?_of_sorted_mem (buildSide levels) pl.1 pl.2 (buildSide_sorted levels)
          (by rw [Prod.mk.eta]; exact hpl)
      have horders : pl.2.orders = ls.orders := by
        rw [hpl_eq]
        rfl
      have hcnt : (pl.2.orders.filter (fun x => x.id = o.id)).length = 1 := by
        rw [horders]
        exact filter_id_length_one ls.orders o (hlevels ls hls).2 (horders ▸ ho)
      simp [levelLookup, hfind, hcnt]
    rcases mem_indexSide Side.Sell (buildSide s.asks) _ e he with hbuy | ⟨pl, hpl, o, ho, rfl⟩
    · rcases mem_indexSide Side.Buy (buildSide s.bids) [] e hbuy with hnil | ⟨pl, hpl, o, ho, rfl⟩
      · cases hnil
      · exact hcase Side.Buy s.bids pl o hpl ho
          (fun ls hls => hwf.1 ls (List.mem_append_left _ hls))
    · exact hcase Side.Sell s.asks pl o hpl ho
        (fun ls hls => hwf.1 ls (List.mem_append_right _ hls))
  · -- invariant (2): every contained order is indexed
    constructor
    · intro e he o ho
      exact isSome_indexSide_mono Side.Sell (buildSide s.asks) _ o.id
        (isSome_indexSide_mem Side.Buy (buildSide s.bids) [] e o he ho)
    · intro e he o ho
      exact isSome_indexSide_mem Side.Sell (buildSide s.asks) _ e o he ho
  · -- invariant (3): bid keys strictly below ask keys
    intro pb hpb pa hpa
    obtain ⟨e, he, rfl⟩ := List.mem_map.1 hpb
    obtain ⟨e', he', rfl⟩ := List.mem_map.1 hpa
    obtain ⟨ls, hls, rfl⟩ := mem_buildSide s.bids e he
    obtain ⟨ls', hls', rfl⟩ := mem_buildSide s.asks e' he'
    exact hwf.2 ls hls ls' hls'
  · -- invariant (4): no empty level
    constructor
    · intro e he
      obtain ⟨ls, hls, rfl⟩ := mem_buildSide s.bids e he
      exact (hwf.1 ls (List.mem_append_left _ hls)).1
    · intro e he
      obtain ⟨ls, hls, rfl⟩ := mem_buildSide s.asks e he
      exact (hwf.1 ls (List.mem_append_right _ hls)).1
  · -- invariant (5): the cache was invalidated
    exact ⟨Or.inl rfl, Or.inl rfl⟩

/-- Counterexample to C2 as stated: a hand-crafted snapshot with the book's
symbol whose single bid level carries no orders restores with `Ok`, yet the
restored book violates the invariants (an empty price level remains). -/
theorem restore_invariants_counterexample :
    ((emptyBook "S").restore_from_snapshot ⟨"S", 0, [⟨100, 0, 0, 0, []⟩], []⟩).1 =
      Except.ok () ∧
    ¬bookInvariants
      ((emptyBook "S").restore_from_snapshot ⟨"S", 0, [⟨100, 0, 0, 0, []⟩], []⟩).2 := by
  constructor
  · decide
  · decide

/-- Witness for the amended C2: restoring a concrete well-formed snapshot
(one bid level at 100, one ask level at 105, distinct order ids) succeeds and
establishes all five invariants. -/
theorem restore_establishes_invariants_witness :
    ((emptyBook "S").restore_from_snapshot
        ⟨"S", 0, [⟨100, 1, 0, 1, [⟨1, 1, 0⟩]⟩], [⟨105, 2, 0, 1, [⟨2, 2, 0⟩]⟩]⟩).1 =
      Except.ok () ∧
    bookInvariants ((emptyBook "S").restore_from_snapshot
        ⟨"S", 0, [⟨100, 1, 0, 1, [⟨1, 1, 0⟩]⟩], [⟨105, 2, 0, 1, [⟨2, 2, 0⟩]⟩]⟩).2 :=
  restore_establishes_invariants (emptyBook "S")
    ⟨"S", 0, [⟨100, 1, 0, 1, [⟨1, 1, 0⟩]⟩], [⟨105, 2, 0, 1, [⟨2, 2, 0⟩]⟩]⟩
    (by decide) (by decide)

end OrderBookRs
